import Mathlib

/-
Verification of the job-crawler extraction pipeline.

The development shallowly embeds the core logic of the crawler (the
`parseDate` multi-format date parser, the deadline extractor with its
relevance score, the link discoverer, the crawl pipeline, the deadline
filter and the reducer-style UI state machine) as executable Lean
functions, and proves or refutes the specification's claims about them.

Modelling conventions:
- Strings are `List Char` (`Chars`); `S` converts a Lean string literal.
- JavaScript `Date` values are epoch milliseconds as `Int`.  `Date.UTC`
  is `dateUTC`, including its silent month/day rollover (ECMAScript
  `MakeDay` normalisation) and the `TimeClip` range check (`timeClip`).
- The generic date constructor `new Date(string)` used as the parser's
  last fallback is host defined; it is passed in as a parameter
  `fb : Chars → Option Int` (none = invalid date), like the fetch and
  HTML collaborators.
- The regular expressions of the source are transcribed as direct
  backtracking matchers over `Chars` with JavaScript semantics
  (leftmost match, greedy quantifiers, alternation in source order).
-/

abbrev Chars := List Char

def S (s : String) : Chars := s.data

/-- JavaScript `toLowerCase` restricted to ASCII letters (the only
characters the crawler's keyword and month tables contain). -/
def lcChar (c : Char) : Char :=
  if 65 ≤ c.toNat ∧ c.toNat ≤ 90 then Char.ofNat (c.toNat + 32) else c

def lowerL (s : Chars) : Chars := s.map lcChar

/-- Character class `\d`, i.e. `[0-9]` (code points 48–57). -/
def isDigitC (c : Char) : Bool := 48 ≤ c.toNat && c.toNat ≤ 57

/-- The date separator class `[. \x2f -]` of patterns 1 and 3
(code points 46, 47, 45). -/
def isSepC (c : Char) : Bool := c.toNat == 46 || c.toNat == 47 || c.toNat == 45

/-- The class `[a-z]` under the `i` flag: any ASCII letter. -/
def isAlphaI (c : Char) : Bool := 97 ≤ (lcChar c).toNat && (lcChar c).toNat ≤ 122

/-- Class `\s` restricted to ASCII whitespace: space, tab, LF, VT, FF, CR. -/
def isWsC (c : Char) : Bool :=
  c.toNat == 32 || c.toNat == 9 || c.toNat == 10 || c.toNat == 11 ||
  c.toNat == 12 || c.toNat == 13

/-- Class `\w`, i.e. `[A-Za-z0-9_]` (underscore is code point 95). -/
def isWordC (c : Char) : Bool := isDigitC c || isAlphaI c || c.toNat == 95

/-- The deadline-payload class `[\w\s,. \x2f -]` (comma 44, dot 46, slash 47,
hyphen 45). -/
def isPayloadC (c : Char) : Bool :=
  isWordC c || isWsC c || c.toNat == 44 || c.toNat == 46 || c.toNat == 47 ||
  c.toNat == 45

/-- The separator class `[\s:.-]` between a trigger phrase and the date
payload (colon is 58). -/
def isStarC (c : Char) : Bool :=
  isWsC c || c.toNat == 58 || c.toNat == 46 || c.toNat == 45

/-- `parseInt(s, 10)` on a string of decimal digits. -/
def parseNatL (s : Chars) : Nat := s.foldl (fun a c => a * 10 + (c.toNat - 48)) 0

/-- JavaScript `String.prototype.trim` (ASCII whitespace). -/
def trimL (s : Chars) : Chars :=
  ((s.dropWhile isWsC).reverse.dropWhile isWsC).reverse

/-- `needle` is a prefix of `hay` (JavaScript `startsWith`). -/
def startsWithL : Chars → Chars → Bool
  | [], _ => true
  | _ :: _, [] => false
  | a :: asx, b :: bs => a == b && startsWithL asx bs

/-- `hay.includes(needle)` (substring containment). -/
def containsSub (needle : Chars) : Chars → Bool
  | [] => startsWithL needle []
  | c :: r => startsWithL needle (c :: r) || containsSub needle r

/- ### Calendar arithmetic (ECMAScript `Date.UTC`) -/

/-- Days since the Unix epoch of the proleptic-Gregorian civil date
`(y, m, d)` with `m` 1-based in `[1, 12]` and `d` arbitrary (day
overflow simply spills into the following months, as in ECMAScript
`MakeDay`).  This is the standard civil-from-days algorithm, equal to
ECMAScript's `MakeDay` for in-range months. -/
def daysFromCivil (y m d : Int) : Int :=
  let yAdj := if m ≤ 2 then y - 1 else y
  let era := yAdj / 400
  let yoe := yAdj - era * 400
  let mp := if 2 < m then m - 3 else m + 9
  let doy := (153 * mp + 2) / 5 + d - 1
  let doe := yoe * 365 + yoe / 4 - yoe / 100 + doy
  era * 146097 + doe - 719468

/-- ECMAScript `MakeDay(y, m, d)` with 0-based month `m` of arbitrary
sign/size: the month is first folded into the year (floor division, as
in the spec), then the civil conversion is applied. -/
def makeDay (y m0 d : Int) : Int :=
  daysFromCivil (y + m0 / 12) (m0 % 12 + 1) d

def msPerDay : Int := 86400000

/-- `Date.UTC(y, m0, d)` in epoch milliseconds, before the range check. -/
def dateUTC (y m0 d : Int) : Int := makeDay y m0 d * msPerDay

/-- ECMAScript `TimeClip`: times beyond ±8.64e15 ms are NaN, i.e. the
constructed `Date` is invalid and `isNaN(date.getTime())` holds. -/
def timeClip (t : Int) : Option Int :=
  if t.natAbs ≤ 8640000000000000 then some t else none

/-- `new Date(Date.UTC(y, m0, d))` followed by the `isNaN` validity
check of the source: `some` epoch ms on success. -/
def mkDateUTC (y m0 d : Int) : Option Int := timeClip (dateUTC y m0 d)

/-- The civil date `(y, m, d)` (`m` 1-based) of a day number, as
computed by `toISOString`'s `YearFromTime`/`MonthFromTime`/
`DateFromTime`; standard days-to-civil algorithm. -/
def civilFromDays (z0 : Int) : Int × Int × Int :=
  let z := z0 + 719468
  let era := z / 146097
  let doe := z - era * 146097
  let yoe := (doe - doe / 1460 + doe / 36524 - doe / 146096) / 365
  let y := yoe + era * 400
  let doy := doe - (365 * yoe + yoe / 4 - yoe / 100)
  let mp := (5 * doy + 2) / 153
  let d := doy - (153 * mp + 2) / 5 + 1
  let m := if mp < 10 then mp + 3 else mp - 9
  (if m ≤ 2 then y + 1 else y, m, d)

/-- The `YYYY-MM-DD` part of `date.toISOString()`, as a civil triple
(the string rendering is injective on civil dates, so two ISO date
strings are equal exactly when these triples are). -/
def isoYmd (ms : Int) : Int × Int × Int := civilFromDays (ms / msPerDay)

/- ### Decimal renderings (used to state round-trip properties) -/

/-- The usual base-10 rendering of a natural number, without padding
(structural recursion on a fuel bound so that the kernel can evaluate
it; the fuel `n + 1` always suffices since `n / 10 < n` for `n ≥ 10`). -/
def natDigitsFuel : Nat → Nat → Chars
  | 0, _ => []
  | f + 1, n =>
    if n < 10 then [Char.ofNat (48 + n)]
    else natDigitsFuel f (n / 10) ++ [Char.ofNat (48 + n % 10)]

def natDigits (n : Nat) : Chars := natDigitsFuel (n + 1) n

/- ### Direct backtracking matchers for the source's regular expressions -/

/-- First-success alternation (`Option` backtracking). -/
def firstSome {α : Type} : Option α → Option α → Option α
  | some x, _ => some x
  | none, b => b

/-- Match exactly `n` characters of class `p` at the head, returning
them and the rest (a greedy bounded quantifier is tried as the chain of
its possible lengths, longest first, via `firstSome`). -/
def takeCount (p : Char → Bool) : Nat → Chars → Option (Chars × Chars)
  | 0, s => some ([], s)
  | _ + 1, [] => none
  | n + 1, c :: r =>
    if p c then (takeCount p n r).map (fun t => (c :: t.1, t.2)) else none

/-- Match one separator `[. \x2f -]` character. -/
def sepThen : Chars → Option (Char × Chars)
  | [] => none
  | c :: r => if isSepC c then some (c, r) else none

/-- One backtracking alternative of pattern 1
`(\d{1,2})[. \x2f -](\d{1,2})[. \x2f -](\d{2,4})` at the current
position, with the three digit groups at the given lengths. -/
def tryDMY (dl ml yl : Nat) (s : Chars) : Option (Chars × Chars × Chars) :=
  match takeCount isDigitC dl s with
  | none => none
  | some (d, r1) =>
    match sepThen r1 with
    | none => none
    | some (_, r2) =>
      match takeCount isDigitC ml r2 with
      | none => none
      | some (m, r3) =>
        match sepThen r3 with
        | none => none
        | some (_, r4) =>
          match takeCount isDigitC yl r4 with
          | none => none
          | some (y, _) => some (d, m, y)

/-- Pattern 1 anchored at the current position: greedy quantifiers, so
the day/month/year lengths are tried longest first, later groups
backtracking before earlier ones. -/
def matchP1At (s : Chars) : Option (Chars × Chars × Chars) :=
  firstSome (tryDMY 2 2 4 s) (firstSome (tryDMY 2 2 3 s) (firstSome (tryDMY 2 2 2 s)
    (firstSome (tryDMY 2 1 4 s) (firstSome (tryDMY 2 1 3 s) (firstSome (tryDMY 2 1 2 s)
      (firstSome (tryDMY 1 2 4 s) (firstSome (tryDMY 1 2 3 s) (firstSome (tryDMY 1 2 2 s)
        (firstSome (tryDMY 1 1 4 s) (firstSome (tryDMY 1 1 3 s) (tryDMY 1 1 2 s)))))))))))

/-- Pattern 1 as `String.prototype.match`: leftmost matching position. -/
def matchP1 : Chars → Option (Chars × Chars × Chars)
  | [] => none
  | c :: r => firstSome (matchP1At (c :: r)) (matchP1 r)

/-- One alternative of pattern 3 `(\d{4})[. \x2f -](\d{1,2})[. \x2f -](\d{1,2})`
at the current position. -/
def tryYMD (ml dl : Nat) (s : Chars) : Option (Chars × Chars × Chars) :=
  match takeCount isDigitC 4 s with
  | none => none
  | some (y, r1) =>
    match sepThen r1 with
    | none => none
    | some (_, r2) =>
      match takeCount isDigitC ml r2 with
      | none => none
      | some (m, r3) =>
        match sepThen r3 with
        | none => none
        | some (_, r4) =>
          match takeCount isDigitC dl r4 with
          | none => none
          | some (d, _) => some (y, m, d)

/-- Pattern 3 anchored at the current position. -/
def matchP3At (s : Chars) : Option (Chars × Chars × Chars) :=
  firstSome (tryYMD 2 2 s) (firstSome (tryYMD 2 1 s)
    (firstSome (tryYMD 1 2 s) (tryYMD 1 1 s)))

/-- Pattern 3, leftmost matching position. -/
def matchP3 : Chars → Option (Chars × Chars × Chars)
  | [] => none
  | c :: r => firstSome (matchP3At (c :: r)) (matchP3 r)

/-- `dateString.replace(/, /g, ' ')`: global left-to-right replacement
of the two-character sequence comma-space by a space. -/
def replaceCS : Chars → Chars
  | [] => []
  | [c] => [c]
  | c :: c2 :: r =>
    if c = ',' ∧ c2 = ' ' then ' ' :: replaceCS r
    else c :: replaceCS (c2 :: r)

/-- Strip a literal (already lower-case) string case-insensitively. -/
def stripLitI : Chars → Chars → Option Chars
  | [], s => some s
  | _ :: _, [] => none
  | a :: asx, b :: bs => if lcChar b == a then stripLitI asx bs else none

/-- The `(?:, )?(\d{4})` tail of pattern 2: the optional comma-space is
greedy, so it is tried first. -/
def txYear (r : Chars) : Option Chars :=
  firstSome ((stripLitI (S ", ") r).bind fun r2 =>
      (takeCount isDigitC 4 r2).map (·.1))
    ((takeCount isDigitC 4 r).map (·.1))

/-- The month-word and everything after it in pattern 2
`([a-z]{3,}) (\d{1,2})?(?:, )?(\d{4})` (with the `i` flag).  The letter
run is maximal: shrinking it would put a letter where the literal space
is required, so no backtracking into `[a-z]{3,}` can succeed.
Returns (optional leading day, month word, optional trailing day, year). -/
def matchTxTail (dayLead : Option Chars) (s : Chars) :
    Option (Option Chars × Chars × Option Chars × Chars) :=
  let mw := s.takeWhile isAlphaI
  if mw.length < 3 then none
  else
    match s.drop mw.length with
    | c :: r3 =>
      if c = ' ' then
        firstSome ((takeCount isDigitC 2 r3).bind fun p =>
            (txYear p.2).map fun y => (dayLead, mw, some p.1, y))
          (firstSome ((takeCount isDigitC 1 r3).bind fun p =>
              (txYear p.2).map fun y => (dayLead, mw, some p.1, y))
            ((txYear r3).map fun y => (dayLead, mw, none, y)))
      else none
    | [] => none

/-- Pattern 2 `(?:(\d{1,2}) )?([a-z]{3,}) (\d{1,2})?(?:, )?(\d{4})`
anchored at the current position: the optional leading-day group is
greedy (present before absent, two digits before one). -/
def matchTxAt (s : Chars) : Option (Option Chars × Chars × Option Chars × Chars) :=
  firstSome ((takeCount isDigitC 2 s).bind fun p =>
      match p.2 with
      | c :: r2 => if c = ' ' then matchTxTail (some p.1) r2 else none
      | [] => none)
    (firstSome ((takeCount isDigitC 1 s).bind fun p =>
        match p.2 with
        | c :: r2 => if c = ' ' then matchTxTail (some p.1) r2 else none
        | [] => none)
      (matchTxTail none s))

/-- Pattern 2, leftmost matching position. -/
def matchTx : Chars → Option (Option Chars × Chars × Option Chars × Chars)
  | [] => none
  | c :: r => firstSome (matchTxAt (c :: r)) (matchTx r)

/- ### The date parser (`parseDate` of the source) -/

/-- The fixed month table
`{ jan: 0, feb: 1, ..., dec: 11 }` of `parseDate`. -/
def monthTable : List (Chars × Nat) :=
  [(S "jan", 0), (S "feb", 1), (S "mar", 2), (S "apr", 3), (S "may", 4),
   (S "jun", 5), (S "jul", 6), (S "aug", 7), (S "sep", 8), (S "oct", 9),
   (S "nov", 10), (S "dec", 11)]

def monthLookup (k : Chars) : Option Nat :=
  (monthTable.find? (fun p => p.1 == k)).map (·.2)

/-- Pattern-1 stage of `parseDate`: on a match, build the day/month/year
numbers (`parseInt`, month − 1, two-digit years mapped to 2000 + y) and
construct the UTC date; `none` both when the pattern does not match and
when the constructed date is invalid (fall through to the next stage). -/
def p1Result (s : Chars) : Option Int :=
  match matchP1 s with
  | none => none
  | some (d, m, y) =>
    let day : Int := parseNatL d
    let month : Int := (parseNatL m : Int) - 1
    let year0 : Int := parseNatL y
    let year := if year0 < 100 then year0 + 2000 else year0
    mkDateUTC year month day

/-- Pattern-2 (textual month) stage of `parseDate`: the input has comma-
space collapsed first; the month word's first three letters are looked
up in `monthTable`; `parts[1] || parts[3]` picks the leading day if the
group participated, else the trailing one; if both are `undefined`,
`parseInt` gives NaN, the constructed date is invalid, and the stage
falls through. -/
def txResult (s : Chars) : Option Int :=
  match matchTx (replaceCS s) with
  | none => none
  | some (d1, mw, d3, y4) =>
    match monthLookup (lowerL (mw.take 3)) with
    | none => none
    | some mi =>
      match firstSome d1 d3 with
      | none => none
      | some dd => mkDateUTC (parseNatL y4) mi (parseNatL dd)

/-- Pattern-3 (ISO-like `yyyy-mm-dd`) stage of `parseDate`
(present only in the reducer variant of the source). -/
def p3Result (s : Chars) : Option Int :=
  match matchP3 s with
  | none => none
  | some (y, m, d) =>
    mkDateUTC (parseNatL y) ((parseNatL m : Int) - 1) (parseNatL d)

/-- `parseDate(dateString)` of the source (the reducer variant, whose
pattern stages are a superset of the other two variants: all three
share pattern 1 and the falsy-input check verbatim).  `fb` is the
host-defined generic date constructor `new Date(string)` used as the
final fallback, `none` standing for an invalid date.  The input is
`Option Chars` so that `null`/`undefined` and the empty string (all
falsy) are covered. -/
def parseDate (fb : Chars → Option Int) (ds : Option Chars) : Option Int :=
  match ds with
  | none => none
  | some s =>
    if s.isEmpty then none
    else
      firstSome (p1Result s)
        (firstSome (txResult s) (firstSome (p3Result s) (fb s)))

/- ### Deadline extraction (trigger regex, relevance score) -/

/-- The trigger-phrase alternatives of the deadline regex
`(?:last date|closing date|deadline|apply by|applications close|submit by)`,
in source order. -/
def triggers : List Chars :=
  [S "last date", S "closing date", S "deadline", S "apply by",
   S "applications close", S "submit by"]

/-- The capture group `([\w\s,. \x2f -]+\d{1,4})` at the current position,
under backtracking: the greedy one-or-more class run is shrunk from its
maximal extent until `\d{1,4}` can match, which happens exactly at the
last digit of the run (the character after it is not a digit), so the
capture is the run cut after its last digit — provided at least one
class character precedes that digit (the `+` must consume something). -/
def dropToDigit : Chars → Option Chars
  | [] => none
  | c :: r => if isDigitC c then some (c :: r) else dropToDigit r

def payloadAt (s : Chars) : Option Chars :=
  let run := s.takeWhile isPayloadC
  (dropToDigit run.reverse).bind fun rv =>
    if 2 ≤ rv.length then some rv.reverse else none

/-- After a matched trigger: the greedy `[\s:.-]*` separator run, shrunk
from maximal length until the payload group matches. -/
def tryStar : Nat → Chars → Option Chars
  | 0, rest => payloadAt rest
  | k + 1, rest => firstSome (payloadAt (rest.drop (k + 1))) (tryStar k rest)

def deadlineAfterTrig (rest : Chars) : Option Chars :=
  tryStar (rest.takeWhile isStarC).length rest

/-- Try each trigger alternative at the current position (in source
order), continuing into separator and payload; a later alternative is
tried when an earlier one matches but its continuation fails. -/
def tryTrigPayload : List Chars → Chars → Option Chars
  | [], _ => none
  | t :: ts, s =>
    firstSome ((stripLitI t s).bind deadlineAfterTrig) (tryTrigPayload ts s)

/-- `bodyText.match(deadlineRegex)`'s first capture group: leftmost
position at which the whole deadline regex matches. -/
def deadlineMatch : Chars → Option Chars
  | [] => none
  | c :: r => firstSome (tryTrigPayload triggers (c :: r)) (deadlineMatch r)

/-- The fixed job-keyword list of the relevance score. -/
def jobKeywords : List Chars :=
  [S "qualification", S "responsibilit", S "experience", S "salary",
   S "location", S "apply now", S "job type"]

/-- The relevance score: how many keywords occur in the lowercased body
text (`lowerBodyText.includes(keyword)`). -/
def relevanceScore (body : Chars) : Nat :=
  jobKeywords.countP (fun k => containsSub k (lowerL body))

/-- The deadline-extraction step of `handleFetchJobs` (the spec's
`DeadlineExtractor` + `RelevanceScorer`): first capture of the deadline
regex, the score-≥-2 gate, `parseDate` on the trimmed payload, and the
not-in-the-past check `lastDate >= today`. -/
def extractDeadline (fb : Chars → Option Int) (today : Int) (body : Chars) :
    Option Int :=
  match deadlineMatch body with
  | none => none
  | some payload =>
    if 2 ≤ relevanceScore body then
      match parseDate fb (some (trimL payload)) with
      | none => none
      | some d => if today ≤ d then some d else none
    else none

/- ### The crawl pipeline (per-document processing, dedup by link) -/

/-- A fetched and DOM-parsed document, reduced to the two capabilities
the pipeline uses: the title produced by `findTitle` via the HTML
collaborator's selector queries, and `document.body.innerText`. -/
structure FetchedDoc where
  title : Chars
  body : Chars
deriving DecidableEq

structure Job where
  title : Chars
  link : Chars
  lastDate : Int
deriving DecidableEq

/-- One `validResults.forEach` step of `handleFetchJobs`: extract a
deadline, and push a new job unless a job with the same link exists
(`!foundJobs.some(job => job.link === postUrl)`). -/
def crawlStep (fb : Chars → Option Int) (today : Int) (acc : List Job)
    (ud : Chars × FetchedDoc) : List Job :=
  match extractDeadline fb today ud.2.body with
  | none => acc
  | some d =>
    if acc.any (fun j => j.link == ud.1) then acc
    else acc ++ [⟨ud.2.title, ud.1, d⟩]

/-- The per-link half of `handleFetchJobs` (the main-variant pipeline):
every candidate link is fetched (`fetch link = none` models a rejected
fetch promise, caught and turned into `{url, html: null}`), failed
fetches are filtered out, and the remaining `(url, document)` pairs are
folded into `foundJobs`. -/
def crawlJobs (fb : Chars → Option Int) (today : Int)
    (fetch : Chars → Option FetchedDoc) (links : List Chars) : List Job :=
  (((links.map (fun l => (l, fetch l))).filterMap
      (fun p => p.2.map (fun d => (p.1, d))))).foldl (crawlStep fb today) []

/- ### The part_001 variant of the pipeline (index-aligned URLs) -/

/-- Trigger alternation of the part_001 deadline regex
`(?:last\s+date|closing\s+date|deadline)`: `\s+` is greedy and followed
by a letter, so its maximal run never needs backtracking. -/
def stripWs1 : Chars → Option Chars
  | [] => none
  | c :: r => if isWsC c then some (r.dropWhile isWsC) else none

def tryTrigP001 (s : Chars) : Option Chars :=
  firstSome ((stripLitI (S "last") s).bind fun r =>
      (stripWs1 r).bind (stripLitI (S "date")))
    (firstSome ((stripLitI (S "closing") s).bind fun r =>
        (stripWs1 r).bind (stripLitI (S "date")))
      (stripLitI (S "deadline") s))

/-- The capture `(\d{1,2}[. \x2f -]\d{1,2}[. \x2f -]\d{2,4})` of the part_001
regex anchored at the current position, returning the matched text. -/
def tryDMYText (dl ml yl : Nat) (s : Chars) : Option Chars :=
  match takeCount isDigitC dl s with
  | none => none
  | some (d, r1) =>
    match sepThen r1 with
    | none => none
    | some (c1, r2) =>
      match takeCount isDigitC ml r2 with
      | none => none
      | some (m, r3) =>
        match sepThen r3 with
        | none => none
        | some (c2, r4) =>
          match takeCount isDigitC yl r4 with
          | none => none
          | some (y, _) => some (d ++ c1 :: m ++ c2 :: y)

def dateAtP001 (s : Chars) : Option Chars :=
  firstSome (tryDMYText 2 2 4 s) (firstSome (tryDMYText 2 2 3 s)
    (firstSome (tryDMYText 2 2 2 s) (firstSome (tryDMYText 2 1 4 s)
      (firstSome (tryDMYText 2 1 3 s) (firstSome (tryDMYText 2 1 2 s)
        (firstSome (tryDMYText 1 2 4 s) (firstSome (tryDMYText 1 2 3 s)
          (firstSome (tryDMYText 1 2 2 s) (firstSome (tryDMYText 1 1 4 s)
            (firstSome (tryDMYText 1 1 3 s) (tryDMYText 1 1 2 s)))))))))))

/-- The lazy gap `[\s\S]*?` before the date capture: the earliest
position at or after the current one where the date pattern matches. -/
def findDateFrom : Chars → Option Chars
  | [] => none
  | c :: r => firstSome (dateAtP001 (c :: r)) (findDateFrom r)

/-- part_001's deadline regex
`(?:last\s+date|closing\s+date|deadline)[\s\S]*?(\d{1,2}[. \x2f -]\d{1,2}[. \x2f -]\d{2,4})`:
leftmost trigger, then the nearest following date pattern. -/
def deadlineMatchP001 : Chars → Option Chars
  | [] => none
  | c :: r =>
    firstSome ((tryTrigP001 (c :: r)).bind findDateFrom) (deadlineMatchP001 r)

/-- part_001's `parseDate`: only pattern 1 and the generic fallback. -/
def parseDateP001 (fb : Chars → Option Int) (ds : Option Chars) : Option Int :=
  match ds with
  | none => none
  | some s => if s.isEmpty then none else firstSome (p1Result s) (fb s)

/-- part_001's per-document half of `handleFetchJobs`.  Note the source:
`validHtmls.forEach((postHtml, index) => { const postUrl = uniqueLinks[index]; ... })`
— the index runs over the null-filtered list `validHtmls` but subscripts
the unfiltered `uniqueLinks`. -/
def crawlP001 (fb : Chars → Option Int) (today : Int)
    (fetch : Chars → Option FetchedDoc) (links : List Chars) : List Job :=
  let valid := (links.map fetch).filterMap id
  valid.enum.foldl (fun acc p =>
    let postUrl := links.getD p.1 []
    match deadlineMatchP001 p.2.body with
    | none => acc
    | some cap =>
      match parseDateP001 fb (some cap) with
      | none => acc
      | some dt =>
        if today ≤ dt then
          if acc.any (fun j => j.link == postUrl) then acc
          else acc ++ [⟨p.2.title, postUrl, dt⟩]
        else acc) []

/- ### Link discovery (`LinkDiscoverer`) -/

/-- An anchor element of the seed document: its `href` attribute value
and its visible `innerText` (both via the HTML collaborator). -/
structure Anchor where
  href : Chars
  text : Chars
deriving DecidableEq

def jobUrlKeywords : List Chars :=
  [S "job", S "career", S "vacancy", S "hiring", S "position"]

/-- The keyword pre-filter: the lowercased URL or the lowercased anchor
text contains one of the five keywords. -/
def keywordHit (url text : Chars) : Bool :=
  jobUrlKeywords.any (fun k =>
    containsSub k (lowerL url) || containsSub k (lowerL text))

/-- `scheme://host` of an absolute http(s)-style URL string, i.e. the
WHATWG `origin` for such URLs: everything up to (not including) the
first `/` after the `://`.  `none` when the string has no `://`
(`new URL(u).origin` would throw). -/
def hostEnd (s : Chars) : Chars := s.takeWhile (fun c => c.toNat != 47)

def urlOrigin (s : Chars) : Option Chars :=
  match s.dropWhile (fun c => c.toNat != 58) with
  | ':' :: '/' :: '/' :: rest =>
    some ((s.takeWhile (fun c => c.toNat != 58)) ++ S "://" ++ hostEnd rest)
  | _ => none

/-- `new Set()` insertion: append unless present (`Array.from` of a
`Set` preserves insertion order). -/
def insertSet (acc : List Chars) (h : Chars) : List Chars :=
  if acc.contains h then acc else acc ++ [h]

/-- The keep-check applied to the (possibly resolved) href `h`: truthy,
starts with the seed's origin string, passes the keyword pre-filter. -/
def keepLink (origin : Chars) (a : Anchor) (acc : List Chars) (h : Chars) :
    List Chars :=
  if ¬h.isEmpty ∧ startsWithL origin h ∧ keywordHit h a.text then
    insertSet acc h
  else acc

/-- One anchor of the seed page, per the source:
relative (non-`http`-prefixed, truthy) hrefs are resolved against the
corrected URL (`resolve` models `new URL(href, correctedUrl).href`,
`none` the thrown exception, which skips the anchor); the result is kept
when it is truthy, starts with the seed's origin string, and passes the
keyword pre-filter. -/
def discoverStep (resolve : Chars → Chars → Option Chars)
    (correctedUrl origin : Chars) (acc : List Chars) (a : Anchor) :
    List Chars :=
  if ¬a.href.isEmpty ∧ ¬startsWithL (S "http") a.href then
    match resolve a.href correctedUrl with
    | none => acc
    | some h => keepLink origin a acc h
  else keepLink origin a acc a.href

/-- The link-discovery loop over the selected anchors of the seed page
(`mainDoc.querySelectorAll('article a, .post a, ...')`, supplied here as
the anchor list). -/
def discover (resolve : Chars → Chars → Option Chars)
    (correctedUrl origin : Chars) (anchors : List Anchor) : List Chars :=
  anchors.foldl (discoverStep resolve correctedUrl origin) []

/- ### The deadline filter (`DeadlineFilter`, main variant) -/

/-- Descending insertion sort on `lastDate`
(`candidateJobs.sort((a, b) => b.lastDate - a.lastDate)`). -/
def insertDesc (j : Job) : List Job → List Job
  | [] => [j]
  | h :: t => if h.lastDate < j.lastDate then j :: h :: t else h :: insertDesc j t

def sortDesc (l : List Job) : List Job := l.foldr insertDesc []

/-- Ascending insertion sort on `lastDate`
(`foundJobs.sort((a, b) => a.lastDate - b.lastDate)`). -/
def insertAsc (j : Job) : List Job → List Job
  | [] => [j]
  | h :: t => if j.lastDate < h.lastDate then j :: h :: t else h :: insertAsc j t

def sortAsc (l : List Job) : List Job := l.foldr insertAsc []

/-- `new Date(filterDate)` for a `YYYY-MM-DD` input string naming the
civil triple `t`: a date-only ISO form is interpreted as UTC midnight. -/
def targetMs (t : Int × Int × Int) : Int := dateUTC t.1 (t.2.1 - 1) t.2.2

/-- The smart deadline filter of the main variant: the target is the
`filterDate` input value, a `YYYY-MM-DD` string, given here as its civil
triple (empty `filterDate` is falsy: `none`).  Exact matches compare the
ISO rendering of `job.lastDate` with the input string; the fallback
compares epoch times against `new Date(filterDate)` (UTC midnight of the
triple), takes the head of the descending sort (the latest candidate
date) and keeps all jobs with exactly that time. -/
def smartFilter (target : Option (Int × Int × Int)) (jobs : List Job) :
    List Job :=
  match target with
  | none => jobs
  | some t =>
    let exactMatchJobs := jobs.filter (fun j => isoYmd j.lastDate == t)
    if ¬exactMatchJobs.isEmpty then exactMatchJobs
    else
      let candidateJobs := jobs.filter (fun j => j.lastDate ≤ targetMs t)
      match sortDesc candidateJobs with
      | [] => []
      | nearest :: _ =>
        candidateJobs.filter (fun j => j.lastDate == nearest.lastDate)

/- ### The reducer state machine (part_000 variant) -/

structure CrawlerState where
  url : Chars
  jobs : List Job
  isLoading : Bool
  status : Chars
  error : Chars
  page : Int
  filterDate : Chars
  showNextSixMonths : Bool
deriving DecidableEq

inductive CrawlerAction where
  | START_SCAN
  | UPDATE_STATUS (payload : Chars)
  | SET_JOBS (payload : List Job)
  | SET_ERROR (payload : Chars)
  | SET_PAGE (payload : Int)
  | SET_URL (payload : Chars)
  | SET_FILTER_DATE (payload : Chars)
  | TOGGLE_SIX_MONTHS_FILTER (payload : Bool)

/-- `crawlerReducer` of the reducer variant, case for case.  The
`default` branch of the `switch` returns the state unchanged and is
unreachable for the actions above, which are all that the source ever
dispatches. -/
def crawlerReducer (state : CrawlerState) : CrawlerAction → CrawlerState
  | .START_SCAN =>
    { state with isLoading := true,
                 status := S "Step 1/3: Fetching main page to find job links...",
                 jobs := [], error := S "", page := 1 }
  | .UPDATE_STATUS p => { state with status := p }
  | .SET_JOBS p => { state with jobs := p, isLoading := false, status := S "" }
  | .SET_ERROR p => { state with error := p, isLoading := false, status := S "" }
  | .SET_PAGE p => { state with page := p }
  | .SET_URL p => { state with url := p }
  | .SET_FILTER_DATE p => { state with filterDate := p }
  | .TOGGLE_SIX_MONTHS_FILTER p => { state with showNextSixMonths := p }

/- ### End-of-run state update of the part_001 variant -/

/-- The `useState` fields of the part_001 variant that its end-of-scan
code touches. -/
structure P001State where
  jobs : List Job
  isLoading : Bool
  error : Chars
  status : Chars
  page : Int
deriving DecidableEq

/-- Lines 100–113 of part_001: zero found jobs sets the completion
message through `setError`; otherwise the sorted jobs are stored and the
page reset; the `finally` block clears `isLoading` and `status`. -/
def finishScanP001 (found : List Job) (st : P001State) : P001State :=
  let st1 :=
    if found.isEmpty then
      { st with error := S "Scan complete. No jobs with future deadlines were found." }
    else
      { st with jobs := sortAsc found, page := 1 }
  { st1 with isLoading := false, status := S "" }

/- ### Shared concrete instantiations -/

/-- A generic date constructor that accepts nothing (every string the
claims exercise is settled by the explicit patterns before the fallback
is consulted). -/
def fbNone : Chars → Option Int := fun _ => none

/- ### C10 — reducer frame property -/

/-- C10: in `crawlerReducer`, each of SET_URL, SET_FILTER_DATE,
SET_PAGE and TOGGLE_SIX_MONTHS_FILTER updates exactly its own field
(url, filterDate, page, showNextSixMonths) and leaves jobs, isLoading,
status and error (indeed every other field) unchanged; START_SCAN
always resets jobs to `[]`, error to `""` and page to 1; and SET_JOBS
and SET_ERROR both set isLoading to false and clear status. -/
theorem c10_reducer_frame (st : CrawlerState) (u fd : Chars) (p : Int)
    (b : Bool) (js : List Job) (e : Chars) :
    crawlerReducer st (.SET_URL u) = { st with url := u } ∧
    crawlerReducer st (.SET_FILTER_DATE fd) = { st with filterDate := fd } ∧
    crawlerReducer st (.SET_PAGE p) = { st with page := p } ∧
    crawlerReducer st (.TOGGLE_SIX_MONTHS_FILTER b) =
      { st with showNextSixMonths := b } ∧
    crawlerReducer st .START_SCAN =
      { st with isLoading := true,
                status := S "Step 1/3: Fetching main page to find job links...",
                jobs := [], error := S "", page := 1 } ∧
    crawlerReducer st (.SET_JOBS js) =
      { st with jobs := js, isLoading := false, status := S "" } ∧
    crawlerReducer st (.SET_ERROR e) =
      { st with error := e, isLoading := false, status := S "" } :=
  ⟨rfl, rfl, rfl, rfl, rfl, rfl, rfl⟩

/- ### C9 — date-parser totality -/

/-- C9: `parseDate` is a total function: for the `null` input and for
every string (including the empty string) it returns either a date or
`null`, never an exception — `parse("")` and `parse(null)` both return
`null` (the falsy check), and on every other string the result is
`none` or `some` date, for any behaviour of the host's generic date
constructor. -/
theorem c9_parseDate_total (fb : Chars → Option Int) :
    parseDate fb none = none ∧
    parseDate fb (some (S "")) = none ∧
    ∀ s : Chars, parseDate fb (some s) = none ∨
      ∃ d : Int, parseDate fb (some s) = some d := by
  refine ⟨rfl, rfl, fun s => ?_⟩
  cases h : parseDate fb (some s) with
  | none => exact Or.inl rfl
  | some d => exact Or.inr ⟨d, rfl⟩

/- ### C8 — empty-but-successful runs -/

/-- C8 counterexample: in the part_001 variant a run that fetched the
seed and candidate links successfully but extracted zero qualifying
jobs does surface an error: `finishScanP001` on an empty job list sets
a non-empty `error` field (the same field the fatal cases use), so the
claim that no error is raised on an empty-but-successful run is false
for this variant of the code. -/
theorem c8_counterexample :
    (finishScanP001 []
      ⟨[], true, S "", S "Step 3/3: Extracting deadlines from 2 pages...", 1⟩).error
      ≠ S "" := by decide

/-- C8 (amended): in the reducer variant a zero-job run dispatches
`SET_JOBS []`, which stores the empty list, ends loading and clears the
status while leaving `error` untouched (empty for a fresh scan, since
START_SCAN cleared it) — observably distinct from the fatal cases,
which go through SET_ERROR; the part_001 variant instead reports the
empty outcome through the same `error` field the fatal cases use,
with the fixed message "Scan complete. No jobs with future deadlines
were found.". -/
theorem c8_amended (st : CrawlerState) (st1 : P001State) (msg : Chars) :
    crawlerReducer st (.SET_JOBS []) =
      { st with jobs := [], isLoading := false, status := S "" } ∧
    (crawlerReducer st (.SET_ERROR msg)).error = msg ∧
    (crawlerReducer st .START_SCAN).error = S "" ∧
    finishScanP001 [] st1 =
      { st1 with
          error := S "Scan complete. No jobs with future deadlines were found.",
          isLoading := false, status := S "" } ∧
    (S "Scan complete. No jobs with future deadlines were found." : Chars)
      ≠ S "" :=
  ⟨rfl, rfl, rfl, rfl, by decide⟩

/- ### C4 — partial failure and link attribution -/

/-- The fetch outcomes of the failing run: three candidate links, the
middle fetch rejects, the last one is a job page. -/
def c4Fetch : Chars → Option FetchedDoc := fun l =>
  if l = S "https://site.example/job-a" then
    some ⟨S "Title A", S "nothing relevant on this page"⟩
  else if l = S "https://site.example/job-c" then
    some ⟨S "Job C", S "last date 31/12/2026"⟩
  else none

def c4Links : List Chars :=
  [S "https://site.example/job-a", S "https://site.example/job-b",
   S "https://site.example/job-c"]

/-- C4: in the part_001 variant, `validHtmls.forEach((postHtml, index) =>
... uniqueLinks[index] ...)` indexes the unfiltered link array with the
position in the null-filtered document array.  In a three-link run whose
middle fetch fails, the job extracted from the document fetched at
link `job-c` (title "Job C") is returned with `link = job-b` — the very
URL whose fetch failed — so the claim that each returned job's link is
the URL of the document its title and deadline were extracted from does
not hold of this code.  The pipeline does continue past the failure and
returns the extracted job (partial-failure tolerance itself holds). -/
theorem c4_misattribution :
    c4Fetch (S "https://site.example/job-b") = none ∧
    c4Fetch (S "https://site.example/job-c") =
      some ⟨S "Job C", S "last date 31/12/2026"⟩ ∧
    crawlP001 fbNone 0 c4Fetch c4Links =
      [⟨S "Job C", S "https://site.example/job-b", dateUTC 2026 11 31⟩] ∧
    (S "https://site.example/job-b" : Chars) ≠ S "https://site.example/job-c" := by
  refine ⟨by decide, by decide, by decide, by decide⟩

/- ### C1 — invalid calendar days are not rejected but rolled over -/

/-- C1 counterexample: `parseDate "31/02/2025"` (day 31 of February)
does not return `null`; `Date.UTC` silently normalises the overflow. -/
theorem c1_counterexample :
    parseDate fbNone (some (S "31/02/2025")) ≠ none := by decide

/-- C1 (amended): for a D/M/Y input whose day does not exist in the
named month, `parseDate` returns the date silently rolled over into the
following month rather than `null`: "31/02/2025" parses to 2025-03-03
and "31/04/2025" (day 31 of a 30-day month) to 2025-05-01, for any
behaviour of the generic-constructor fallback (pattern 1 settles the
input before the fallback is consulted). -/
theorem c1_amended (fb : Chars → Option Int) :
    parseDate fb (some (S "31/02/2025")) = some (dateUTC 2025 1 31) ∧
    parseDate fb (some (S "31/04/2025")) = some (dateUTC 2025 3 31) ∧
    dateUTC 2025 1 31 = dateUTC 2025 2 3 ∧
    isoYmd (dateUTC 2025 1 31) = (2025, 3, 3) ∧
    dateUTC 2025 3 31 = dateUTC 2025 4 1 ∧
    isoYmd (dateUTC 2025 3 31) = (2025, 5, 1) :=
  ⟨rfl, rfl, by decide, by decide, by decide, by decide⟩

/- ### C3 — the relevance gate of the deadline extractor -/

/-- C3: the relevance gate.  Whenever fewer than 2 of the fixed job
keywords occur in the lowercased body text, the deadline extractor
returns `null` (in particular for every document containing a deadline
trigger phrase); and whenever the deadline regex produced a payload,
at least 2 keywords occur, and the trimmed payload parses to a date not
before today, the extractor returns exactly that date. -/
theorem c3_relevance_gate (fb : Chars → Option Int) (today : Int) (body : Chars) :
    (relevanceScore body < 2 → extractDeadline fb today body = none) ∧
    (∀ payload, deadlineMatch body = some payload →
      2 ≤ relevanceScore body →
      ∀ d : Int, parseDate fb (some (trimL payload)) = some d →
        today ≤ d → extractDeadline fb today body = some d) := by
  constructor
  · intro h
    unfold extractDeadline
    cases hm : deadlineMatch body with
    | none => rfl
    | some p => simp [show ¬ 2 ≤ relevanceScore body by omega]
  · intro payload hm hs d hp ht
    unfold extractDeadline
    rw [hm]
    simp [hs, hp, ht]

/-- C3 witness: a body with a trigger phrase but a single keyword is
rejected; adding a second keyword makes the same deadline accepted. -/
theorem c3_witness :
    extractDeadline fbNone 0
      (S "Deadline: 31/12/2026. Salary info only") = none ∧
    extractDeadline fbNone (dateUTC 2025 0 1)
      (S "Apply now! Deadline: 31/12/2026. Salary: high") =
      some (dateUTC 2026 11 31) :=
  ⟨(c3_relevance_gate fbNone 0 _).1 (by decide),
   (c3_relevance_gate fbNone (dateUTC 2025 0 1) _).2 (S "31/12/2026")
     (by decide) (by decide) _ (by decide) (by decide)⟩

/- ### C7 — link discovery -/

theorem mem_of_mem_insertSet {acc : List Chars} {h u : Chars}
    (hu : u ∈ insertSet acc h) : u ∈ acc ∨ u = h := by
  unfold insertSet at hu
  split at hu
  · exact Or.inl hu
  · rcases List.mem_append.mp hu with h1 | h1
    · exact Or.inl h1
    · exact Or.inr (List.mem_singleton.mp h1)

theorem nodup_insertSet {acc : List Chars} {h : Chars} (hn : acc.Nodup) :
    (insertSet acc h).Nodup := by
  unfold insertSet
  split
  · exact hn
  · next hc =>
    have : ¬ h ∈ acc := by simpa using hc
    simp [List.nodup_append, hn, this]

theorem mem_keepLink {origin : Chars} {acc : List Chars} {h u : Chars} {a : Anchor}
    (hu : u ∈ keepLink origin a acc h) :
    u ∈ acc ∨ (u = h ∧ startsWithL origin u = true ∧
      keywordHit u a.text = true) := by
  unfold keepLink at hu
  split at hu
  · next hc =>
    rcases mem_of_mem_insertSet hu with h1 | h1
    · exact Or.inl h1
    · subst h1
      exact Or.inr ⟨rfl, hc.2.1, hc.2.2⟩
  · exact Or.inl hu

theorem nodup_keepLink {origin : Chars} {acc : List Chars} {h : Chars} {a : Anchor}
    (hn : acc.Nodup) : (keepLink origin a acc h).Nodup := by
  unfold keepLink
  split
  · exact nodup_insertSet hn
  · exact hn

theorem mem_discoverStep {resolve : Chars → Chars → Option Chars}
    {cu origin : Chars} {acc : List Chars} {u : Chars} {a : Anchor}
    (hu : u ∈ discoverStep resolve cu origin acc a) :
    u ∈ acc ∨ (startsWithL origin u = true ∧ keywordHit u a.text = true ∧
      (a.href = u ∨ resolve a.href cu = some u)) := by
  unfold discoverStep at hu
  split at hu
  · cases hr : resolve a.href cu with
    | none => rw [hr] at hu; exact Or.inl hu
    | some h =>
      rw [hr] at hu
      rcases mem_keepLink hu with h1 | ⟨rfl, h2, h3⟩
      · exact Or.inl h1
      · exact Or.inr ⟨h2, h3, Or.inr rfl⟩
  · rcases mem_keepLink hu with h1 | ⟨rfl, h2, h3⟩
    · exact Or.inl h1
    · exact Or.inr ⟨h2, h3, Or.inl rfl⟩

theorem nodup_discoverStep {resolve : Chars → Chars → Option Chars}
    {cu origin : Chars} {acc : List Chars} {a : Anchor} (hn : acc.Nodup) :
    (discoverStep resolve cu origin acc a).Nodup := by
  unfold discoverStep
  split
  · cases resolve a.href cu with
    | none => exact hn
    | some h => exact nodup_keepLink hn
  · exact nodup_keepLink hn

theorem discover_fold_sound (resolve : Chars → Chars → Option Chars)
    (cu origin : Chars) (anchors : List Anchor) :
    ∀ acc : List Chars,
      (acc.Nodup → (anchors.foldl (discoverStep resolve cu origin) acc).Nodup) ∧
      (∀ u, u ∈ anchors.foldl (discoverStep resolve cu origin) acc →
        u ∈ acc ∨ (startsWithL origin u = true ∧ ∃ a ∈ anchors,
          keywordHit u a.text = true ∧
          (a.href = u ∨ resolve a.href cu = some u))) := by
  induction anchors with
  | nil => exact fun acc => ⟨fun h => h, fun u hu => Or.inl hu⟩
  | cons a rest ih =>
    intro acc
    constructor
    · intro hn
      exact (ih _).1 (nodup_discoverStep hn)
    · intro u hu
      rcases (ih _).2 u hu with h1 | ⟨h2, a', ha', h3⟩
      · rcases mem_discoverStep h1 with h4 | ⟨h5, h6, h7⟩
        · exact Or.inl h4
        · exact Or.inr ⟨h5, a, List.mem_cons_self a rest, h6, h7⟩
      · exact Or.inr ⟨h2, a', List.mem_cons_of_mem a ha', h3⟩

/-- The end-to-end scenario anchors of the spec: three same-origin
article links, two of them job-like by keyword, one unrelated, and one
cross-origin link. -/
def c7Anchors : List Anchor :=
  [⟨S "https://example.com/jobs/dev", S "Developer role"⟩,
   ⟨S "https://example.com/careers/head", S "Head of sales"⟩,
   ⟨S "https://example.com/blog/holiday", S "Holiday notes"⟩,
   ⟨S "https://other.com/jobs/dev", S "Developer elsewhere"⟩]

/-- C7 counterexample: the same-site restriction of the source is the
string-prefix test `href.startsWith(new URL(correctedUrl).origin)`, not
origin equality.  Where the seed is `https://example.com`, an anchor to
`https://example.com.evil.org/jobs` passes the prefix test and is
returned, although its origin `https://example.com.evil.org` differs
from the seed's origin — so the claim that only links whose origin
equals the seed's origin (never cross-origin links) are returned is
false of this code. -/
theorem c7_counterexample :
    discover (fun _ _ => none) (S "https://example.com") (S "https://example.com")
      [⟨S "https://example.com.evil.org/jobs", S "external jobs"⟩] =
      [S "https://example.com.evil.org/jobs"] ∧
    urlOrigin (S "https://example.com.evil.org/jobs") =
      some (S "https://example.com.evil.org") ∧
    urlOrigin (S "https://example.com") = some (S "https://example.com") ∧
    (S "https://example.com.evil.org" : Chars) ≠ S "https://example.com" := by
  refine ⟨by decide, by decide, by decide, by decide⟩

/-- C7 (amended): the discovered list is deduplicated, and every
returned URL starts with the seed's origin *string* (which admits
same-prefix hosts such as `example.com.evil.org`, so origin equality is
not guaranteed) and stems from an anchor whose (possibly resolved) href
it is, with the URL or that anchor's text containing a job keyword; an
anchor whose href fails to normalise is skipped without affecting the
rest of the scan; and the spec's four-anchor scenario returns exactly
the two job-like same-origin links. -/
theorem c7_amended (resolve : Chars → Chars → Option Chars)
    (cu origin : Chars) (anchors : List Anchor) :
    (discover resolve cu origin anchors).Nodup ∧
    (∀ u ∈ discover resolve cu origin anchors,
      startsWithL origin u = true ∧ ∃ a ∈ anchors,
        keywordHit u a.text = true ∧
        (a.href = u ∨ resolve a.href cu = some u)) ∧
    (∀ (a : Anchor) (rest : List Anchor), ¬a.href.isEmpty →
      ¬startsWithL (S "http") a.href = true → resolve a.href cu = none →
      discover resolve cu origin (a :: rest) = discover resolve cu origin rest) ∧
    discover (fun _ _ => none) (S "https://example.com") (S "https://example.com")
      c7Anchors =
      [S "https://example.com/jobs/dev", S "https://example.com/careers/head"] := by
  refine ⟨(discover_fold_sound resolve cu origin anchors []).1 List.nodup_nil,
    fun u hu => ?_, fun a rest h1 h2 h3 => ?_, by decide⟩
  · rcases (discover_fold_sound resolve cu origin anchors []).2 u hu with h1 | h1
    · cases h1
    · exact h1
  · unfold discover
    simp only [List.foldl_cons]
    unfold discoverStep
    rw [if_pos ⟨h1, h2⟩, h3]

/-- C7 witness: the amended theorem applied at the concrete scenario:
the first returned link starts with the origin and stems from a
scenario anchor with a keyword hit, and a malformed-href anchor is
skipped without aborting the scan. -/
theorem c7_witness :
    (startsWithL (S "https://example.com") (S "https://example.com/jobs/dev") = true ∧
      ∃ a ∈ c7Anchors, keywordHit (S "https://example.com/jobs/dev") a.text = true ∧
        (a.href = S "https://example.com/jobs/dev" ∨
          (fun _ _ => (none : Option Chars)) a.href (S "https://example.com") =
            some (S "https://example.com/jobs/dev"))) ∧
    discover (fun _ _ => none) (S "https://example.com") (S "https://example.com")
      (⟨S "%%bad", S "broken"⟩ :: c7Anchors) =
      discover (fun _ _ => none) (S "https://example.com") (S "https://example.com")
        c7Anchors :=
  ⟨(c7_amended (fun _ _ => none) (S "https://example.com") (S "https://example.com")
      c7Anchors).2.1 (S "https://example.com/jobs/dev") (by decide),
   (c7_amended (fun _ _ => none) (S "https://example.com") (S "https://example.com")
      c7Anchors).2.2.1 ⟨S "%%bad", S "broken"⟩ c7Anchors (by decide) (by decide) rfl⟩


/- ### C2 — the exact-or-nearest-before deadline filter -/

theorem sortDesc_max (l : List Job) :
    l = [] ∨ ∃ h t, sortDesc l = h :: t ∧ h ∈ l ∧
      ∀ x ∈ l, x.lastDate ≤ h.lastDate := by
  induction l with
  | nil => exact Or.inl rfl
  | cons a l' ih =>
    right
    have hfold : sortDesc (a :: l') = insertDesc a (sortDesc l') := rfl
    rcases ih with rfl | ⟨h, t, hs, hm, hmax⟩
    · exact ⟨a, [], rfl, List.mem_singleton.mpr rfl, by simp⟩
    · rw [hs] at hfold
      unfold insertDesc at hfold
      by_cases hlt : h.lastDate < a.lastDate
      · rw [if_pos hlt] at hfold
        refine ⟨a, h :: t, hfold, List.mem_cons_self a l', fun x hx => ?_⟩
        rcases List.mem_cons.mp hx with rfl | hx'
        · exact le_refl _
        · exact le_of_lt (lt_of_le_of_lt (hmax x hx') hlt)
      · rw [if_neg hlt] at hfold
        refine ⟨h, insertDesc a t, hfold, List.mem_cons_of_mem a hm,
          fun x hx => ?_⟩
        rcases List.mem_cons.mp hx with rfl | hx'
        · exact le_of_not_lt hlt
        · exact hmax x hx'


theorem smartFilter_some (t : Int × Int × Int) (jobs : List Job) :
    smartFilter (some t) jobs =
      if ¬(jobs.filter (fun j => isoYmd j.lastDate == t)).isEmpty then
        jobs.filter (fun j => isoYmd j.lastDate == t)
      else
        match sortDesc (jobs.filter (fun j => decide (j.lastDate ≤ targetMs t))) with
        | [] => []
        | nearest :: _ =>
          (jobs.filter (fun j => decide (j.lastDate ≤ targetMs t))).filter
            (fun j => j.lastDate == nearest.lastDate) := rfl

/-- The three jobs of the spec's filter example, with deadlines
2025-01-10, 2025-01-15 and 2025-01-20. -/
def c2Job10 : Job := ⟨S "Post 10", S "https://x.example/p10", dateUTC 2025 0 10⟩

def c2Job15 : Job := ⟨S "Post 15", S "https://x.example/p15", dateUTC 2025 0 15⟩

def c2Job20 : Job := ⟨S "Post 20", S "https://x.example/p20", dateUTC 2025 0 20⟩

def c2Jobs : List Job := [c2Job10, c2Job15, c2Job20]

/-- C2: the deadline filter with a target date `t`.  If some job's
deadline falls on `t` (ISO-rendering comparison, i.e. same civil date),
the result is exactly the jobs with that deadline; otherwise, if some
job's deadline is on or before `t`, the result is exactly the jobs
whose deadline equals the maximum deadline among those on or before `t`
(all ties kept); otherwise the result is empty.  On the spec's example
deadlines {2025-01-10, 2025-01-15, 2025-01-20}: target 2025-01-15
keeps only the 15th, target 2025-01-17 keeps only the 15th (nearest
before), target 2025-01-05 keeps nothing. -/
theorem c2_deadline_filter (jobs : List Job) (t : Int × Int × Int) :
    ((∃ j ∈ jobs, isoYmd j.lastDate = t) →
      smartFilter (some t) jobs =
        jobs.filter (fun j => isoYmd j.lastDate == t)) ∧
    ((∀ j ∈ jobs, isoYmd j.lastDate ≠ t) →
      (∃ j ∈ jobs, j.lastDate ≤ targetMs t) →
      ∃ M : Int,
        (∃ j ∈ jobs, j.lastDate ≤ targetMs t ∧ j.lastDate = M) ∧
        (∀ j ∈ jobs, j.lastDate ≤ targetMs t → j.lastDate ≤ M) ∧
        smartFilter (some t) jobs =
          jobs.filter (fun j =>
            decide (j.lastDate ≤ targetMs t) && j.lastDate == M)) ∧
    ((∀ j ∈ jobs, isoYmd j.lastDate ≠ t) →
      (∀ j ∈ jobs, ¬ j.lastDate ≤ targetMs t) →
      smartFilter (some t) jobs = []) ∧
    smartFilter (some (2025, 1, 15)) c2Jobs = [c2Job15] ∧
    smartFilter (some (2025, 1, 17)) c2Jobs = [c2Job15] ∧
    smartFilter (some (2025, 1, 5)) c2Jobs = [] := by
  refine ⟨?_, ?_, ?_, by decide, by decide, by decide⟩
  · rintro ⟨j, hj, hjt⟩
    have hmem : j ∈ jobs.filter (fun j => isoYmd j.lastDate == t) :=
      List.mem_filter.mpr ⟨hj, beq_iff_eq.mpr hjt⟩
    have hne : ¬ (jobs.filter (fun j => isoYmd j.lastDate == t)).isEmpty = true := by
      simp only [List.isEmpty_iff]
      exact List.ne_nil_of_mem hmem
    rw [smartFilter_some, if_pos hne]
  · intro hnone hle
    have hexact : jobs.filter (fun j => isoYmd j.lastDate == t) = [] :=
      List.filter_eq_nil_iff.mpr (fun j hj => by simp [hnone j hj])
    obtain ⟨j0, hj0, hj0le⟩ := hle
    have hcmem : j0 ∈ jobs.filter (fun j => decide (j.lastDate ≤ targetMs t)) :=
      List.mem_filter.mpr ⟨hj0, by simpa using hj0le⟩
    rcases sortDesc_max (jobs.filter (fun j => decide (j.lastDate ≤ targetMs t)))
      with hnil | ⟨h, tl, hs, hm, hmax⟩
    · rw [hnil] at hcmem
      cases hcmem
    · have hhj := List.mem_filter.mp hm
      refine ⟨h.lastDate,
        ⟨h, hhj.1, by simpa using hhj.2, rfl⟩,
        fun j hj hjle => hmax j (List.mem_filter.mpr ⟨hj, by simpa using hjle⟩),
        ?_⟩
      rw [smartFilter_some, if_neg (by simp [hexact]), hs]
      simp only [List.filter_filter]
      exact List.filter_congr (fun j hj => Bool.and_comm _ _)
  · intro hnone hnle
    have hexact : jobs.filter (fun j => isoYmd j.lastDate == t) = [] :=
      List.filter_eq_nil_iff.mpr (fun j hj => by simp [hnone j hj])
    have hcands : jobs.filter (fun j => decide (j.lastDate ≤ targetMs t)) = [] :=
      List.filter_eq_nil_iff.mpr (fun j hj => by simp [hnle j hj])
    rw [smartFilter_some, if_neg (by simp [hexact]), hcands]
    rfl

/-- C2 witness: the nearest-before tier of the filter theorem applied
to the example jobs with target 2025-01-17 (no exact match, two
candidates on or before the target). -/
theorem c2_witness :
    ∃ M : Int,
      (∃ j ∈ c2Jobs, j.lastDate ≤ targetMs (2025, 1, 17) ∧ j.lastDate = M) ∧
      (∀ j ∈ c2Jobs, j.lastDate ≤ targetMs (2025, 1, 17) → j.lastDate ≤ M) ∧
      smartFilter (some (2025, 1, 17)) c2Jobs =
        c2Jobs.filter (fun j =>
          decide (j.lastDate ≤ targetMs (2025, 1, 17)) && j.lastDate == M) :=
  (c2_deadline_filter c2Jobs (2025, 1, 17)).2.1 (by decide) (by decide)

/- ### C5 — pipeline output invariant (dedup, no past deadlines) -/

theorem firstSome_eq_some {α : Type} {a b : Option α} {v : α}
    (h : firstSome a b = some v) : a = some v ∨ (a = none ∧ b = some v) := by
  cases a with
  | some x => exact Or.inl h
  | none => exact Or.inr ⟨rfl, h⟩

theorem mkDateUTC_dvd {y m d v : Int} (h : mkDateUTC y m d = some v) :
    msPerDay ∣ v := by
  unfold mkDateUTC timeClip at h
  split at h
  · cases h
    exact dvd_mul_left msPerDay (makeDay y m d)
  · cases h

theorem p1Result_dvd {s : Chars} {v : Int} (h : p1Result s = some v) :
    msPerDay ∣ v := by
  unfold p1Result at h
  split at h
  · cases h
  · exact mkDateUTC_dvd h

theorem txResult_dvd {s : Chars} {v : Int} (h : txResult s = some v) :
    msPerDay ∣ v := by
  unfold txResult at h
  split at h
  · cases h
  · split at h
    · cases h
    · split at h
      · cases h
      · exact mkDateUTC_dvd h

theorem p3Result_dvd {s : Chars} {v : Int} (h : p3Result s = some v) :
    msPerDay ∣ v := by
  unfold p3Result at h
  split at h
  · cases h
  · exact mkDateUTC_dvd h

/-- Every date `parseDate` produces is a whole number of days (UTC
midnight), provided the host's generic date constructor also returns
only UTC midnights (the spec's `CalendarDate` normalisation). -/
theorem parseDate_dvd {fb : Chars → Option Int} {ds : Option Chars} {v : Int}
    (hfb : ∀ s d, fb s = some d → msPerDay ∣ d)
    (h : parseDate fb ds = some v) : msPerDay ∣ v := by
  unfold parseDate at h
  split at h
  · cases h
  · split at h
    · cases h
    · rcases firstSome_eq_some h with h1 | ⟨_, h1⟩
      · exact p1Result_dvd h1
      · rcases firstSome_eq_some h1 with h2 | ⟨_, h2⟩
        · exact txResult_dvd h2
        · rcases firstSome_eq_some h2 with h3 | ⟨_, h3⟩
          · exact p3Result_dvd h3
          · exact hfb _ _ h3

/-- A date the extractor returns was produced by `parseDate` on the
captured payload and is not before `today`. -/
theorem extractDeadline_some {fb : Chars → Option Int} {today : Int}
    {body : Chars} {v : Int} (h : extractDeadline fb today body = some v) :
    today ≤ v ∧ ∃ payload, parseDate fb (some (trimL payload)) = some v := by
  unfold extractDeadline at h
  split at h
  · cases h
  · next payload _ =>
    split at h
    · split at h
      · cases h
      · split at h
        · cases h
          exact ⟨by assumption, payload, by assumption⟩
        · cases h
    · cases h

theorem crawlStep_fold_prop (fb : Chars → Option Int) (today : Int)
    (l : List (Chars × FetchedDoc)) (P : Job → Prop)
    (hstep : ∀ (u : Chars) (d : FetchedDoc) (v : Int),
      extractDeadline fb today d.body = some v → P ⟨d.title, u, v⟩) :
    ∀ acc, (∀ j ∈ acc, P j) →
      ∀ j ∈ l.foldl (crawlStep fb today) acc, P j := by
  induction l with
  | nil => exact fun acc hacc j hj => hacc j hj
  | cons p rest ih =>
    intro acc hacc
    apply ih
    intro j hj
    unfold crawlStep at hj
    split at hj
    · exact hacc j hj
    · next v hv =>
      split at hj
      · exact hacc j hj
      · rcases List.mem_append.mp hj with h1 | h1
        · exact hacc j h1
        · rw [List.mem_singleton.mp h1]
          exact hstep p.1 p.2 v hv

theorem crawlStep_fold_nodup (fb : Chars → Option Int) (today : Int)
    (l : List (Chars × FetchedDoc)) :
    ∀ acc, ((acc.map Job.link).Nodup) →
      (((l.foldl (crawlStep fb today) acc).map Job.link).Nodup) := by
  induction l with
  | nil => exact fun acc h => h
  | cons p rest ih =>
    intro acc hacc
    apply ih
    unfold crawlStep
    split
    · exact hacc
    · split
      · exact hacc
      · next hguard =>
        have hnot : ¬ p.1 ∈ acc.map Job.link := by
          intro hmem
          rcases List.mem_map.mp hmem with ⟨j, hj, hlink⟩
          apply hguard
          simp only [List.any_eq_true]
          exact ⟨j, hj, by simp [hlink]⟩
        rw [List.map_append]
        simp [List.nodup_append, hacc, hnot]

/-- C5: for any crawl (any fetch outcomes, any candidate links), the
job list built before any deadline filter is applied contains no two
jobs with the same link, and every job's deadline is on or after the
UTC midnight of the crawl-start instant `now`.  `today` is the
threshold the code computes (`new Date()` + `setHours(0,0,0,0)`, i.e.
the host-local midnight, which always lies in the half-open day before
`now` — only that bound is needed); `fb` is assumed to return UTC
midnights, as the spec's `CalendarDate` does. -/
theorem c5_pipeline_invariant (fb : Chars → Option Int)
    (fetch : Chars → Option FetchedDoc) (links : List Chars)
    (today now : Int)
    (hfb : ∀ s d, fb s = some d → msPerDay ∣ d)
    (htoday : now - msPerDay < today) :
    ((crawlJobs fb today fetch links).map Job.link).Nodup ∧
    ∀ j ∈ crawlJobs fb today fetch links,
      (now / msPerDay) * msPerDay ≤ j.lastDate := by
  constructor
  · exact crawlStep_fold_nodup fb today _ [] (by simp)
  · intro j hj
    have hprop := crawlStep_fold_prop fb today _
      (fun j => msPerDay ∣ j.lastDate ∧ today ≤ j.lastDate)
      (fun u d v hv => by
        obtain ⟨hle, _, hp⟩ := extractDeadline_some hv
        exact ⟨parseDate_dvd hfb hp, hle⟩)
      [] (by simp) j hj
    obtain ⟨hdvd, hle⟩ := hprop
    unfold msPerDay at hdvd htoday ⊢
    omega

/-- The single-document run used to witness the pipeline invariant. -/
def c5Fetch : Chars → Option FetchedDoc := fun l =>
  if l = S "https://site.example/job-a" then
    some ⟨S "Job A", S "Apply now! Deadline: 31/12/2026. Salary: high"⟩
  else none

/-- C5 witness: the invariant theorem applied to a concrete run (crawl
start 2026-01-02 UTC midnight, `today` equal to it). -/
theorem c5_witness :
    ((crawlJobs fbNone (dateUTC 2026 0 2) c5Fetch
        [S "https://site.example/job-a", S "https://site.example/job-b"]).map
      Job.link).Nodup ∧
    ∀ j ∈ crawlJobs fbNone (dateUTC 2026 0 2) c5Fetch
        [S "https://site.example/job-a", S "https://site.example/job-b"],
      (dateUTC 2026 0 2 / msPerDay) * msPerDay ≤ j.lastDate :=
  c5_pipeline_invariant fbNone c5Fetch
    [S "https://site.example/job-a", S "https://site.example/job-b"]
    (dateUTC 2026 0 2) (dateUTC 2026 0 2)
    (fun s d h => nomatch h) (by decide)

/- ### C6 — pattern order and format round-trips: infrastructure -/

theorem toNat_digitChar (k : Nat) (h : k < 10) :
    (Char.ofNat (48 + k)).toNat = 48 + k := by
  interval_cases k <;> decide

theorem isDigitC_digitChar (k : Nat) (h : k < 10) :
    isDigitC (Char.ofNat (48 + k)) = true := by
  interval_cases k <;> decide

theorem isDigitC_iff {c : Char} : isDigitC c = true ↔ 48 ≤ c.toNat ∧ c.toNat ≤ 57 := by
  unfold isDigitC
  simp

theorem not_sep_of_digit {c : Char} (h : isDigitC c = true) : isSepC c = false := by
  rw [isDigitC_iff] at h
  unfold isSepC
  simp only [Bool.or_eq_false_iff, beq_eq_false_iff_ne]
  omega

theorem natDigitsFuel_eq (n : Nat) : ∀ f : Nat, n < f → natDigitsFuel f n = natDigits n := by
  induction n using Nat.strong_induction_on with
  | _ n ih =>
    intro f hf
    match f, hf with
    | f' + 1, _ =>
      by_cases h10 : n < 10
      · simp [natDigitsFuel, natDigits, h10]
      · have hdiv : n / 10 < n := Nat.div_lt_self (by omega) (by omega)
        have h1 : natDigitsFuel f' (n / 10) = natDigits (n / 10) :=
          ih (n / 10) hdiv f' (by omega)
        have h2 : natDigitsFuel n (n / 10) = natDigits (n / 10) :=
          ih (n / 10) hdiv n (by omega)
        simp [natDigitsFuel, natDigits, h10, h1, h2]

theorem natDigits_lt10 {n : Nat} (h : n < 10) :
    natDigits n = [Char.ofNat (48 + n)] := by
  simp [natDigits, natDigitsFuel, h]

theorem natDigits_split {n : Nat} (h : 10 ≤ n) :
    natDigits n = natDigits (n / 10) ++ [Char.ofNat (48 + n % 10)] := by
  have hdiv : n / 10 < n := Nat.div_lt_self (by omega) (by omega)
  rw [natDigits]
  rw [show natDigitsFuel (n + 1) n =
    natDigitsFuel n (n / 10) ++ [Char.ofNat (48 + n % 10)] by
      simp [natDigitsFuel, Nat.not_lt.mpr h]]
  rw [natDigitsFuel_eq _ _ hdiv]

theorem natDigits_all (n : Nat) : (natDigits n).all isDigitC = true := by
  induction n using Nat.strong_induction_on with
  | _ n ih =>
    by_cases h10 : n < 10
    · rw [natDigits_lt10 h10]
      simp [isDigitC_digitChar n h10]
    · rw [natDigits_split (by omega)]
      have hdiv : n / 10 < n := Nat.div_lt_self (by omega) (by omega)
      simp [List.all_append, ih (n / 10) hdiv,
        isDigitC_digitChar (n % 10) (Nat.mod_lt n (by omega))]

theorem natDigits_ne_nil (n : Nat) : natDigits n ≠ [] := by
  by_cases h10 : n < 10
  · rw [natDigits_lt10 h10]; simp
  · rw [natDigits_split (by omega)]; simp

theorem parseNat_natDigits (n : Nat) : parseNatL (natDigits n) = n := by
  induction n using Nat.strong_induction_on with
  | _ n ih =>
    by_cases h10 : n < 10
    · rw [natDigits_lt10 h10]
      simp [parseNatL, toNat_digitChar n h10]
    · rw [natDigits_split (by omega)]
      have hdiv : n / 10 < n := Nat.div_lt_self (by omega) (by omega)
      unfold parseNatL
      rw [List.foldl_append]
      have hfold : (natDigits (n / 10)).foldl
          (fun a c => a * 10 + (c.toNat - 48)) 0 = n / 10 := ih (n / 10) hdiv
      rw [hfold]
      simp [toNat_digitChar (n % 10) (Nat.mod_lt n (by omega))]
      omega

theorem natDigits_len1 {n : Nat} (h : n < 10) : (natDigits n).length = 1 := by
  rw [natDigits_lt10 h]; rfl

theorem natDigits_len2 {n : Nat} (h1 : 10 ≤ n) (h2 : n < 100) :
    (natDigits n).length = 2 := by
  rw [natDigits_split h1, natDigits_lt10 (by omega : n / 10 < 10)]
  rfl

theorem natDigits_len4 {n : Nat} (h1 : 1000 ≤ n) (h2 : n ≤ 9999) :
    (natDigits n).length = 4 := by
  rw [natDigits_split (by omega), natDigits_split (by omega : 10 ≤ n / 10)]
  simp [natDigits_len2 (by omega : 10 ≤ n / 10 / 10)
    (by omega : n / 10 / 10 < 100)]

theorem takeCount_under (p : Char → Bool) :
    ∀ (n : Nat) (l r : Chars), n ≤ l.length → l.all p = true →
      takeCount p n (l ++ r) = some (l.take n, l.drop n ++ r) := by
  intro n
  induction n with
  | zero => intro l r _ _; rfl
  | succ n' ih =>
    intro l r hn hall
    cases l with
    | nil => simp at hn
    | cons c cs =>
      simp only [List.all_cons, Bool.and_eq_true] at hall
      have hn' : n' ≤ cs.length := by simpa using hn
      simp [takeCount, hall.1, ih cs r hn' hall.2]

theorem takeCount_exact (p : Char → Bool) (l r : Chars) (hall : l.all p = true) :
    takeCount p l.length (l ++ r) = some (l, r) := by
  rw [takeCount_under p l.length l r (le_refl _) hall]
  simp

theorem takeCount_toolong (p : Char → Bool) :
    ∀ (l : Chars) (r : Chars) (n : Nat), l.all p = true →
      (∀ c, r.head? = some c → p c = false) → l.length < n →
      takeCount p n (l ++ r) = none := by
  intro l
  induction l with
  | nil =>
    intro r n _ hb hn
    cases n with
    | zero => omega
    | succ n' =>
      cases r with
      | nil => rfl
      | cons c r' => simp [takeCount, hb c rfl]
  | cons c cs ih =>
    intro r n hall hb hn
    simp only [List.all_cons, Bool.and_eq_true] at hall
    cases n with
    | zero => omega
    | succ n' =>
      have hn' : cs.length < n' := by simpa using hn
      simp [takeCount, hall.1, ih r n' hall.2 hb hn']

theorem takeCount_suffix (p : Char → Bool) (n : Nat) (Y : Chars)
    (hY : Y.all p = true) :
    takeCount p n Y = if n ≤ Y.length then some (Y.take n, Y.drop n) else none := by
  split
  · have h := takeCount_under p n Y [] (by omega) hY
    simpa using h
  · have h := takeCount_toolong p Y [] n hY (by simp) (by omega)
    simpa using h

/-- The value of one pattern-1 alternative on a string of the exact
shape `digits ++ sep ++ digits ++ sep ++ digits`: the day and month
group lengths must hit their digit runs exactly (a shorter run leaves a
digit where the separator must be, a longer one runs into the
separator), and the year group takes any prefix of the final run. -/
theorem tryDMY_shape (D M Y : Chars) (sep : Char) (dl ml yl : Nat)
    (hD : D.all isDigitC = true) (hM : M.all isDigitC = true)
    (hY : Y.all isDigitC = true) (hss : isSepC sep = true)
    (hsd : isDigitC sep = false) :
    tryDMY dl ml yl (D ++ sep :: (M ++ sep :: Y)) =
      if dl = D.length ∧ ml = M.length ∧ yl ≤ Y.length then
        some (D, M, Y.take yl)
      else none := by
  rcases Nat.lt_trichotomy dl D.length with hdl | hdl | hdl
  · rw [if_neg (by omega)]
    have ht := takeCount_under isDigitC dl D (sep :: (M ++ sep :: Y)) (by omega) hD
    cases hdrop : D.drop dl with
    | nil =>
      have hlen := congrArg List.length hdrop
      simp at hlen
      omega
    | cons c cs =>
      rw [hdrop] at ht
      have hc : isDigitC c = true := by
        have hmem : c ∈ D :=
          List.drop_subset dl D (by rw [hdrop]; exact List.mem_cons_self c cs)
        exact List.all_eq_true.mp hD c hmem
      unfold tryDMY
      rw [ht]
      simp [sepThen, not_sep_of_digit hc]
  · subst hdl
    have ht1 := takeCount_exact isDigitC D (sep :: (M ++ sep :: Y)) hD
    have hsep1 : sepThen (sep :: (M ++ sep :: Y)) = some (sep, M ++ sep :: Y) := by
      simp [sepThen, hss]
    rcases Nat.lt_trichotomy ml M.length with hml | hml | hml
    · rw [if_neg (by omega)]
      have ht2 := takeCount_under isDigitC ml M (sep :: Y) (by omega) hM
      cases hdrop : M.drop ml with
      | nil =>
        have hlen := congrArg List.length hdrop
        simp at hlen
        omega
      | cons c cs =>
        rw [hdrop] at ht2
        have hc : isDigitC c = true := by
          have hmem : c ∈ M :=
            List.drop_subset ml M (by rw [hdrop]; exact List.mem_cons_self c cs)
          exact List.all_eq_true.mp hM c hmem
        simp [tryDMY, ht1, hsep1, ht2, sepThen, hss, not_sep_of_digit hc]
    · subst hml
      have ht2 := takeCount_exact isDigitC M (sep :: Y) hM
      have hsep2 : sepThen (sep :: Y) = some (sep, Y) := by simp [sepThen, hss]
      have hty := takeCount_suffix isDigitC yl Y hY
      by_cases hyl : yl ≤ Y.length
      · have hcond : D.length = D.length ∧ M.length = M.length ∧ yl ≤ Y.length :=
          ⟨rfl, rfl, hyl⟩
        rw [if_pos hcond]
        rw [if_pos hyl] at hty
        simp [tryDMY, ht1, hsep1, ht2, hsep2, hty, hss]
      · rw [if_neg (by omega :
          ¬(D.length = D.length ∧ M.length = M.length ∧ yl ≤ Y.length))]
        rw [if_neg hyl] at hty
        simp [tryDMY, ht1, hsep1, ht2, hsep2, hty, hss]
    · rw [if_neg (by omega)]
      have ht2 := takeCount_toolong isDigitC M (sep :: Y) ml hM
        (by intro c hc; cases hc; exact hsd) hml
      simp [tryDMY, ht1, hsep1, ht2, hss]
  · rw [if_neg (by omega)]
    have ht := takeCount_toolong isDigitC D (sep :: (M ++ sep :: Y)) dl hD
      (by intro c hc; cases hc; exact hsd) hdl
    simp [tryDMY, ht, hss]

theorem matchP1At_shape (D M Y : Chars) (sep : Char)
    (hD : D.all isDigitC = true) (hM : M.all isDigitC = true)
    (hY : Y.all isDigitC = true) (hss : isSepC sep = true)
    (hsd : isDigitC sep = false)
    (hDl : D.length = 1 ∨ D.length = 2) (hMl : M.length = 1 ∨ M.length = 2)
    (hYl : 2 ≤ Y.length ∧ Y.length ≤ 4) :
    matchP1At (D ++ sep :: (M ++ sep :: Y)) = some (D, M, Y) := by
  have h := fun dl ml yl => tryDMY_shape D M Y sep dl ml yl hD hM hY hss hsd
  unfold matchP1At
  rw [h 2 2 4, h 2 2 3, h 2 2 2, h 2 1 4, h 2 1 3, h 2 1 2,
      h 1 2 4, h 1 2 3, h 1 2 2, h 1 1 4, h 1 1 3, h 1 1 2]
  have htake : Y.take Y.length = Y := by simp
  rcases hDl with hDl | hDl <;> rcases hMl with hMl | hMl <;>
    (have hy2 : Y.length = 2 ∨ Y.length = 3 ∨ Y.length = 4 := by omega) <;>
    rcases hy2 with hy | hy | hy <;>
    simp [hDl, hMl, hy, firstSome, List.take_of_length_le]

theorem matchP1_cons (c : Char) (r : Chars) :
    matchP1 (c :: r) = firstSome (matchP1At (c :: r)) (matchP1 r) := rfl

theorem matchP1_shape (D M Y : Chars) (sep : Char)
    (hD : D.all isDigitC = true) (hM : M.all isDigitC = true)
    (hY : Y.all isDigitC = true) (hss : isSepC sep = true)
    (hsd : isDigitC sep = false)
    (hDl : D.length = 1 ∨ D.length = 2) (hMl : M.length = 1 ∨ M.length = 2)
    (hYl : 2 ≤ Y.length ∧ Y.length ≤ 4) :
    matchP1 (D ++ sep :: (M ++ sep :: Y)) = some (D, M, Y) := by
  have hAt := matchP1At_shape D M Y sep hD hM hY hss hsd hDl hMl hYl
  cases D with
  | nil => simp at hDl
  | cons c D' =>
    rw [List.cons_append] at hAt ⊢
    rw [matchP1_cons, hAt]
    rfl

theorem p1Result_eq {s D M Y : Chars} (h : matchP1 s = some (D, M, Y)) :
    p1Result s =
      mkDateUTC
        (if (parseNatL Y : Int) < 100 then (parseNatL Y : Int) + 2000
         else (parseNatL Y : Int))
        ((parseNatL M : Int) - 1) (parseNatL D : Int) := by
  unfold p1Result
  rw [h]

theorem parseDate_some_eq (fb : Chars → Option Int) (s : Chars) :
    parseDate fb (some s) =
      if s.isEmpty then none
      else firstSome (p1Result s)
        (firstSome (txResult s) (firstSome (p3Result s) (fb s))) := rfl

theorem parseDate_of_p1 {fb : Chars → Option Int} {s : Chars} {v : Int}
    (hne : s ≠ []) (h : p1Result s = some v) :
    parseDate fb (some s) = some v := by
  rw [parseDate_some_eq, if_neg (by simpa [List.isEmpty_iff] using hne), h]
  rfl

theorem timeClip_dateUTC (y m d : Int) (hy : 0 ≤ y ∧ y ≤ 9999)
    (hm : 0 ≤ m ∧ m ≤ 11) (hd : 0 ≤ d ∧ d ≤ 31) :
    mkDateUTC y m d = some (dateUTC y m d) := by
  unfold mkDateUTC timeClip
  rw [if_pos]
  unfold dateUTC makeDay daysFromCivil msPerDay
  have hmm : m / 12 = 0 := by omega
  have hmm2 : m % 12 = m := by omega
  rw [hmm, hmm2]
  dsimp only
  split <;> split <;> omega

theorem sep_facts {sep : Char} (h : sep = '/' ∨ sep = '-' ∨ sep = '.') :
    isSepC sep = true ∧ isDigitC sep = false := by
  rcases h with rfl | rfl | rfl <;> exact ⟨by decide, by decide⟩

theorem natDigits_len12 {n : Nat} (h2 : n < 100) :
    (natDigits n).length = 1 ∨ (natDigits n).length = 2 := by
  by_cases h10 : n < 10
  · exact Or.inl (natDigits_len1 h10)
  · exact Or.inr (natDigits_len2 (by omega) (by omega))

/-- Pattern-1 round-trip, 4-digit year: rendering a valid day/month
with a 4-digit year in any of the three separators parses back to the
same calendar date. -/
theorem parseDMY4 (fb : Chars → Option Int) (sep : Char) (d m y : Nat)
    (hsep : sep = '/' ∨ sep = '-' ∨ sep = '.')
    (hd : 1 ≤ d ∧ d ≤ 31) (hm : 1 ≤ m ∧ m ≤ 12) (hy : 1000 ≤ y ∧ y ≤ 9999) :
    parseDate fb
        (some (natDigits d ++ sep :: (natDigits m ++ sep :: natDigits y))) =
      some (dateUTC (y : Int) ((m : Int) - 1) (d : Int)) := by
  obtain ⟨hss, hsd⟩ := sep_facts hsep
  have hmatch := matchP1_shape (natDigits d) (natDigits m) (natDigits y) sep
    (natDigits_all d) (natDigits_all m) (natDigits_all y) hss hsd
    (natDigits_len12 (by omega)) (natDigits_len12 (by omega))
    (by rw [natDigits_len4 hy.1 hy.2]; omega)
  have hp1 := p1Result_eq hmatch
  rw [parseNat_natDigits, parseNat_natDigits, parseNat_natDigits] at hp1
  rw [if_neg (by omega : ¬ ((y : Int) < 100))] at hp1
  rw [timeClip_dateUTC _ _ _ (by omega) (by omega) (by omega)] at hp1
  exact parseDate_of_p1 (by simp [natDigits_ne_nil]) hp1

/-- Pattern-1 round-trip, 2-digit year: a two-digit year `y` is mapped
to `2000 + y`. -/
theorem parseDMY2 (fb : Chars → Option Int) (sep : Char) (d m y : Nat)
    (hsep : sep = '/' ∨ sep = '-' ∨ sep = '.')
    (hd : 1 ≤ d ∧ d ≤ 31) (hm : 1 ≤ m ∧ m ≤ 12) (hy : 10 ≤ y ∧ y ≤ 99) :
    parseDate fb
        (some (natDigits d ++ sep :: (natDigits m ++ sep :: natDigits y))) =
      some (dateUTC ((y : Int) + 2000) ((m : Int) - 1) (d : Int)) := by
  obtain ⟨hss, hsd⟩ := sep_facts hsep
  have hmatch := matchP1_shape (natDigits d) (natDigits m) (natDigits y) sep
    (natDigits_all d) (natDigits_all m) (natDigits_all y) hss hsd
    (natDigits_len12 (by omega)) (natDigits_len12 (by omega))
    (by rw [natDigits_len2 hy.1 (by omega)]; omega)
  have hp1 := p1Result_eq hmatch
  rw [parseNat_natDigits, parseNat_natDigits, parseNat_natDigits] at hp1
  rw [if_pos (by omega : ((y : Int) < 100))] at hp1
  rw [timeClip_dateUTC _ _ _ (by omega) (by omega) (by omega)] at hp1
  exact parseDate_of_p1 (by simp [natDigits_ne_nil]) hp1

theorem replaceCS_id : ∀ (s : Chars), (∀ c ∈ s, c ≠ ',') → replaceCS s = s
  | [], _ => rfl
  | [_], _ => rfl
  | c :: c2 :: r, h => by
    unfold replaceCS
    rw [if_neg (fun hc => h c (List.mem_cons_self c (c2 :: r)) hc.1)]
    rw [replaceCS_id (c2 :: r) (fun c' hc' => h c' (List.mem_cons_of_mem _ hc'))]

theorem lcChar_digit {c : Char} (h : isDigitC c = true) : lcChar c = c := by
  rw [isDigitC_iff] at h
  unfold lcChar
  rw [if_neg (by omega)]

theorem not_sep_of_alpha {c : Char} (h : isAlphaI c = true) : isSepC c = false := by
  unfold isAlphaI lcChar at h
  unfold isSepC
  simp only [Bool.and_eq_true, decide_eq_true_eq] at h
  simp only [Bool.or_eq_false_iff, beq_eq_false_iff_ne]
  by_cases hc : 65 ≤ c.toNat ∧ c.toNat ≤ 90
  · rw [if_pos hc] at h
    omega
  · rw [if_neg hc] at h
    omega

theorem not_digit_of_alpha {c : Char} (h : isAlphaI c = true) : isDigitC c = false := by
  unfold isAlphaI lcChar at h
  simp only [Bool.and_eq_true, decide_eq_true_eq] at h
  unfold isDigitC
  simp only [Bool.and_eq_false_iff, decide_eq_false_iff_not]
  by_cases hc : 65 ≤ c.toNat ∧ c.toNat ≤ 90
  · rw [if_pos hc] at h
    omega
  · rw [if_neg hc] at h
    omega

theorem takeCount_mem (p : Char → Bool) :
    ∀ (n : Nat) (s t r : Chars), takeCount p n s = some (t, r) →
      ∀ c ∈ r, c ∈ s := by
  intro n
  induction n with
  | zero =>
    intro s t r h c hc
    cases h
    exact hc
  | succ n' ih =>
    intro s t r h c hc
    cases s with
    | nil => simp [takeCount] at h
    | cons a as =>
      unfold takeCount at h
      split at h
      · cases htc : takeCount p n' as with
        | none => rw [htc] at h; cases h
        | some pr =>
          rw [htc] at h
          cases h
          exact List.mem_cons_of_mem a
            (ih as pr.1 pr.2 (by rw [htc]) c hc)
      · cases h

theorem tryDMY_none (dl ml yl : Nat) (s : Chars)
    (h : ∀ c ∈ s, isSepC c = false) : tryDMY dl ml yl s = none := by
  unfold tryDMY
  cases htc : takeCount isDigitC dl s with
  | none => rfl
  | some pr =>
    cases hr : pr.2 with
    | nil => simp [sepThen, hr]
    | cons c rs =>
      have hc : c ∈ s := takeCount_mem isDigitC dl s pr.1 pr.2
        (by rw [htc]) c (by rw [hr]; exact List.mem_cons_self c rs)
      simp [sepThen, hr, h c hc]

theorem matchP1At_none (s : Chars) (h : ∀ c ∈ s, isSepC c = false) :
    matchP1At s = none := by
  have e := fun dl ml yl => tryDMY_none dl ml yl s h
  unfold matchP1At
  rw [e 2 2 4, e 2 2 3, e 2 2 2, e 2 1 4, e 2 1 3, e 2 1 2,
      e 1 2 4, e 1 2 3, e 1 2 2, e 1 1 4, e 1 1 3, e 1 1 2]
  rfl

theorem matchP1_none (s : Chars) (h : ∀ c ∈ s, isSepC c = false) :
    matchP1 s = none := by
  induction s with
  | nil => rfl
  | cons c r ih =>
    rw [matchP1_cons, matchP1At_none _ h,
      ih (fun c' hc' => h c' (List.mem_cons_of_mem _ hc'))]
    rfl

theorem p1Result_none {s : Chars} (h : matchP1 s = none) : p1Result s = none := by
  unfold p1Result
  rw [h]

theorem takeWhile_append_stop (p : Char → Bool) (l : Chars) (b : Char) (r : Chars)
    (hl : l.all p = true) (hb : p b = false) :
    (l ++ b :: r).takeWhile p = l := by
  induction l with
  | nil => simp [List.takeWhile_cons, hb]
  | cons c cs ih =>
    simp only [List.all_cons, Bool.and_eq_true] at hl
    simp [List.takeWhile_cons, hl.1, ih hl.2]

theorem drop_all_digits {Y : Chars} (k : Nat) (hY : Y.all isDigitC = true) :
    (Y.drop k).all isDigitC = true :=
  List.all_eq_true.mpr
    (fun c hc => List.all_eq_true.mp hY c (List.drop_subset k Y hc))

theorem stripComma_digits {Y' : Chars} (hY : Y'.all isDigitC = true)
    (hne : Y' ≠ []) : stripLitI (S ", ") Y' = none := by
  cases Y' with
  | nil => exact absurd rfl hne
  | cons c rest =>
    simp only [List.all_cons, Bool.and_eq_true] at hY
    have h1 : lcChar c = c := lcChar_digit hY.1
    have h2 : (c == ',') = false := by
      have hc := hY.1
      rw [isDigitC_iff] at hc
      exact beq_eq_false_iff_ne.mpr
        (fun e => by rw [e] at hc; exact absurd hc (by decide))
    rw [show S ", " = ',' :: [' '] from rfl]
    unfold stripLitI
    rw [h1, if_neg (by simp [h2])]

theorem txYear_short {Y' : Chars} (hY : Y'.all isDigitC = true) (hne : Y' ≠ [])
    (hlen : Y'.length < 4) : txYear Y' = none := by
  unfold txYear
  rw [stripComma_digits hY hne]
  rw [takeCount_suffix isDigitC 4 Y' hY, if_neg (by omega)]
  rfl

theorem txYear_exact {Y' : Chars} (hY : Y'.all isDigitC = true) (hne : Y' ≠ [])
    (hlen : Y'.length = 4) : txYear Y' = some Y' := by
  unfold txYear
  rw [stripComma_digits hY hne]
  rw [takeCount_suffix isDigitC 4 Y' hY, if_pos (by omega)]
  simp [firstSome, List.take_of_length_le, hlen]

theorem matchTxTail_shape (dayLead : Option Chars) (MN Y : Chars)
    (hMN : MN.all isAlphaI = true) (hlen : 3 ≤ MN.length)
    (hY : Y.all isDigitC = true) (hY4 : Y.length = 4) :
    matchTxTail dayLead (MN ++ ' ' :: Y) = some (dayLead, MN, none, Y) := by
  have hYne : Y ≠ [] := by
    intro hnil
    rw [hnil] at hY4
    simp at hY4
  unfold matchTxTail
  rw [takeWhile_append_stop isAlphaI MN ' ' Y hMN (by decide)]
  rw [if_neg (by omega), List.drop_left]
  have ht2 := takeCount_suffix isDigitC 2 Y hY
  rw [if_pos (by omega)] at ht2
  have ht1 := takeCount_suffix isDigitC 1 Y hY
  rw [if_pos (by omega)] at ht1
  have hd2 : (Y.drop 2) ≠ [] := by
    intro hnil
    have := congrArg List.length hnil
    simp at this
    omega
  have hd1 : (Y.drop 1) ≠ [] := by
    intro hnil
    have := congrArg List.length hnil
    simp at this
    omega
  have htail : txYear Y.tail = none := by
    have h := txYear_short (drop_all_digits 1 hY) hd1 (by simp; omega)
    rwa [List.drop_one] at h
  simp [ht2, ht1, htail,
    txYear_short (drop_all_digits 2 hY) hd2 (by simp; omega),
    txYear_exact hY hYne hY4, firstSome]

theorem matchTxAt_shape (D MN Y : Chars)
    (hD : D.all isDigitC = true) (hDl : D.length = 1 ∨ D.length = 2)
    (hMN : MN.all isAlphaI = true) (hlen : 3 ≤ MN.length)
    (hY : Y.all isDigitC = true) (hY4 : Y.length = 4) :
    matchTxAt (D ++ ' ' :: (MN ++ ' ' :: Y)) = some (some D, MN, none, Y) := by
  have htail := matchTxTail_shape (some D) MN Y hMN hlen hY hY4
  unfold matchTxAt
  rcases hDl with hDl | hDl
  · have h2 : takeCount isDigitC 2 (D ++ ' ' :: (MN ++ ' ' :: Y)) = none :=
      takeCount_toolong isDigitC D _ 2 hD
        (by intro c hc; cases hc; decide) (by omega)
    have h1 := takeCount_exact isDigitC D (' ' :: (MN ++ ' ' :: Y)) hD
    rw [hDl] at h1
    simp [h2, h1, htail, firstSome]
  · have h2 := takeCount_exact isDigitC D (' ' :: (MN ++ ' ' :: Y)) hD
    rw [hDl] at h2
    simp [h2, htail, firstSome]

theorem matchTx_cons (c : Char) (r : Chars) :
    matchTx (c :: r) = firstSome (matchTxAt (c :: r)) (matchTx r) := rfl

theorem matchTx_shape (D MN Y : Chars)
    (hD : D.all isDigitC = true) (hDl : D.length = 1 ∨ D.length = 2)
    (hMN : MN.all isAlphaI = true) (hlen : 3 ≤ MN.length)
    (hY : Y.all isDigitC = true) (hY4 : Y.length = 4) :
    matchTx (D ++ ' ' :: (MN ++ ' ' :: Y)) = some (some D, MN, none, Y) := by
  have hAt := matchTxAt_shape D MN Y hD hDl hMN hlen hY hY4
  cases D with
  | nil => simp at hDl
  | cons c D' =>
    rw [List.cons_append] at hAt ⊢
    rw [matchTx_cons, hAt]
    rfl

theorem ne_comma_of_digit {c : Char} (h : isDigitC c = true) : c ≠ ',' := by
  intro e
  rw [e] at h
  exact absurd h (by decide)

theorem ne_comma_of_alpha {c : Char} (h : isAlphaI c = true) : c ≠ ',' := by
  intro e
  rw [e] at h
  exact absurd h (by decide)

theorem txResult_shape (D MN Y : Chars) (mi : Nat)
    (hD : D.all isDigitC = true) (hDl : D.length = 1 ∨ D.length = 2)
    (hMN : MN.all isAlphaI = true) (hlen : 3 ≤ MN.length)
    (hY : Y.all isDigitC = true) (hY4 : Y.length = 4)
    (hml : monthLookup (lowerL (MN.take 3)) = some mi)
    (hnc : ∀ c ∈ (D ++ ' ' :: (MN ++ ' ' :: Y)), c ≠ ',') :
    txResult (D ++ ' ' :: (MN ++ ' ' :: Y)) =
      mkDateUTC (parseNatL Y) (mi : Int) (parseNatL D) := by
  unfold txResult
  rw [replaceCS_id _ hnc, matchTx_shape D MN Y hD hDl hMN hlen hY hY4]
  simp [hml, firstSome]

theorem parseDate_of_tx {fb : Chars → Option Int} {s : Chars} {v : Int}
    (hne : s ≠ []) (hp1 : p1Result s = none) (htx : txResult s = some v) :
    parseDate fb (some s) = some v := by
  rw [parseDate_some_eq, if_neg (by simpa [List.isEmpty_iff] using hne), hp1, htx]
  rfl

/-- The full month names used to state the textual round-trip (their
first three letters are exactly the keys of `parseDate`'s month
table). -/
def monthNames : List Chars :=
  [S "january", S "february", S "march", S "april", S "may", S "june",
   S "july", S "august", S "september", S "october", S "november", S "december"]

def monthName (i : Nat) : Chars := monthNames.getD i []

theorem monthName_facts (i : Nat) (h : i < 12) :
    (monthName i).all isAlphaI = true ∧ 3 ≤ (monthName i).length ∧
      monthLookup (lowerL ((monthName i).take 3)) = some i := by
  interval_cases i <;> exact ⟨by decide, by decide, by decide⟩

/-- Textual-month round-trip: rendering `day monthname year` (month
index `mi`, 0-based as in the source's month table) parses back to the
same calendar date via pattern 2 — pattern 1 cannot match (the string
contains no separator character). -/
theorem parseTextual (fb : Chars → Option Int) (d y mi : Nat)
    (hmi : mi < 12) (hd : 1 ≤ d ∧ d ≤ 31) (hy : 1000 ≤ y ∧ y ≤ 9999) :
    parseDate fb
        (some (natDigits d ++ ' ' :: (monthName mi ++ ' ' :: natDigits y))) =
      some (dateUTC (y : Int) (mi : Int) (d : Int)) := by
  obtain ⟨hMN, hlen, hml⟩ := monthName_facts mi hmi
  have hD := natDigits_all d
  have hY := natDigits_all y
  have hDl := natDigits_len12 (show d < 100 by omega)
  have hY4 := natDigits_len4 hy.1 hy.2
  have hnosep : ∀ c ∈ (natDigits d ++ ' ' :: (monthName mi ++ ' ' :: natDigits y)),
      isSepC c = false := by
    intro c hc
    rcases List.mem_append.mp hc with h | h
    · exact not_sep_of_digit (List.all_eq_true.mp hD c h)
    · rcases List.mem_cons.mp h with rfl | h
      · decide
      · rcases List.mem_append.mp h with h | h
        · exact not_sep_of_alpha (List.all_eq_true.mp hMN c h)
        · rcases List.mem_cons.mp h with rfl | h
          · decide
          · exact not_sep_of_digit (List.all_eq_true.mp hY c h)
  have hnc : ∀ c ∈ (natDigits d ++ ' ' :: (monthName mi ++ ' ' :: natDigits y)),
      c ≠ ',' := by
    intro c hc
    rcases List.mem_append.mp hc with h | h
    · exact ne_comma_of_digit (List.all_eq_true.mp hD c h)
    · rcases List.mem_cons.mp h with rfl | h
      · decide
      · rcases List.mem_append.mp h with h | h
        · exact ne_comma_of_alpha (List.all_eq_true.mp hMN c h)
        · rcases List.mem_cons.mp h with rfl | h
          · decide
          · exact ne_comma_of_digit (List.all_eq_true.mp hY c h)
  have hp1 : p1Result (natDigits d ++ ' ' :: (monthName mi ++ ' ' :: natDigits y)) = none :=
    p1Result_none (matchP1_none _ hnosep)
  have htx := txResult_shape (natDigits d) (monthName mi) (natDigits y) mi
    hD hDl hMN hlen hY hY4 hml hnc
  rw [parseNat_natDigits, parseNat_natDigits] at htx
  rw [timeClip_dateUTC _ _ _ (by omega) (by omega) (by omega)] at htx
  exact parseDate_of_tx (by simp [natDigits_ne_nil]) hp1 htx

/-- C6 counterexample: the format round-trip fails for the ISO
rendering.  "2025-01-02" — the ISO form of the valid triple
(2025, January, 2) — is captured by pattern 1 first (as the embedded
D-M-Y substring "25-01-02" with two-digit year "02") and parses to
2002-01-25, not 2025-01-02. -/
theorem c6_counterexample :
    parseDate fbNone (some (S "2025-01-02")) = some (dateUTC 2002 0 25) ∧
    isoYmd (dateUTC 2002 0 25) = (2002, 1, 25) ∧
    dateUTC 2002 0 25 ≠ dateUTC 2025 0 2 := by
  refine ⟨by decide, by decide, by decide⟩

/-- C6 (amended): `parseDate` attempts numeric D/M/Y first, the textual
month form second, numeric Y-M-D third and the generic fallback last
(not Y-M-D second as claimed).  The round-trip holds for the D/M/Y
rendering with any of the three separators (both 4-digit years and
2-digit years, the latter mapped to 2000+y) and for the textual
rendering "day monthname year"; an ISO rendering parses via pattern 3
only when pattern 1 finds no embedded D-M-Y substring (e.g. single
digit month and day, "2025-3-4"), while a zero-padded ISO rendering is
misparsed by pattern 1 ("2025-01-02" → 2002-01-25); and a string
offering both a textual date and an ISO date is resolved by the textual
pattern ("4 jan 2026 2025-3-4" → 2026-01-04). -/
theorem c6_amended :
    (∀ (fb : Chars → Option Int) (sep : Char) (d m y : Nat),
      (sep = '/' ∨ sep = '-' ∨ sep = '.') →
      1 ≤ d → d ≤ 31 → 1 ≤ m → m ≤ 12 → 1000 ≤ y → y ≤ 9999 →
      parseDate fb
          (some (natDigits d ++ sep :: (natDigits m ++ sep :: natDigits y))) =
        some (dateUTC (y : Int) ((m : Int) - 1) (d : Int))) ∧
    (∀ (fb : Chars → Option Int) (sep : Char) (d m y : Nat),
      (sep = '/' ∨ sep = '-' ∨ sep = '.') →
      1 ≤ d → d ≤ 31 → 1 ≤ m → m ≤ 12 → 10 ≤ y → y ≤ 99 →
      parseDate fb
          (some (natDigits d ++ sep :: (natDigits m ++ sep :: natDigits y))) =
        some (dateUTC ((y : Int) + 2000) ((m : Int) - 1) (d : Int))) ∧
    (∀ (fb : Chars → Option Int) (d y mi : Nat),
      mi < 12 → 1 ≤ d → d ≤ 31 → 1000 ≤ y → y ≤ 9999 →
      parseDate fb
          (some (natDigits d ++ ' ' :: (monthName mi ++ ' ' :: natDigits y))) =
        some (dateUTC (y : Int) (mi : Int) (d : Int))) ∧
    parseDate fbNone (some (S "4 jan 2026 2025-3-4")) =
      some (dateUTC 2026 0 4) ∧
    parseDate fbNone (some (S "2025-3-4")) = some (dateUTC 2025 2 4) ∧
    parseDate fbNone (some (S "2025-01-02")) = some (dateUTC 2002 0 25) :=
  ⟨fun fb sep d m y hsep h1 h2 h3 h4 h5 h6 =>
      parseDMY4 fb sep d m y hsep ⟨h1, h2⟩ ⟨h3, h4⟩ ⟨h5, h6⟩,
   fun fb sep d m y hsep h1 h2 h3 h4 h5 h6 =>
      parseDMY2 fb sep d m y hsep ⟨h1, h2⟩ ⟨h3, h4⟩ ⟨h5, h6⟩,
   fun fb d y mi hmi h1 h2 h3 h4 =>
      parseTextual fb d y mi hmi ⟨h1, h2⟩ ⟨h3, h4⟩,
   by decide, by decide, by decide⟩

/-- C6 witness: the amended round-trips applied at 31/12/2025 (D/M/Y)
and "4 january 2026" (textual). -/
theorem c6_witness :
    parseDate fbNone
        (some (natDigits 31 ++ '/' :: (natDigits 12 ++ '/' :: natDigits 2025))) =
      some (dateUTC 2025 11 31) ∧
    parseDate fbNone
        (some (natDigits 4 ++ ' ' :: (monthName 0 ++ ' ' :: natDigits 2026))) =
      some (dateUTC 2026 0 4) := by
  constructor
  · have h := c6_amended.1 fbNone '/' 31 12 2025 (Or.inl rfl)
      (by decide) (by decide) (by decide) (by decide) (by decide) (by decide)
    simpa using h
  · have h := c6_amended.2.2.1 fbNone 4 2026 0
      (by decide) (by decide) (by decide) (by decide) (by decide)
    simpa using h
